import Mathlib

/-!
Verification development for the COSE key structure and IANA-style registry
model of the `coset` crate (files `src/iana/mod.rs` and `src/key/mod.rs`).

The registries are transcribed constant-for-constant from the
`iana_registry!` macro invocations.  The macro generates, for each registry
enum, a `to_i128` conversion (the enum discriminant) and a `from_i128`
lookup that scans the guard arms in declaration order and returns the first
constant whose value equals the argument; `regFrom` below models exactly
that scan (`List.find?` over the declaration-order constant list).
-/

namespace Coset

/-- Models the `from_i128` body generated by the `iana_registry!` macro:
the match arms test the constants in declaration order and return the first
whose discriminant equals `i`, else `None`. -/
def regFrom {α : Type} (elems : List α) (toInt : α → Int) (i : Int) : Option α :=
  elems.find? (fun c => toInt c == i)

namespace iana

/-- IANA-registered COSE header parameters (`HeaderParameter` in `src/iana/mod.rs`). -/
inductive HeaderParameter where
  | Reserved | Alg | Crit | ContentType | Kid | Iv | PartialIv
  | CounterSignature | CounterSignature0 | KidContext
  | X5Bag | X5Chain | X5T | X5U | CuphNonce | CuphOwnerPubKey
deriving DecidableEq

/-- Discriminant values of `HeaderParameter` as declared in the source. -/
def HeaderParameter.to_i128 : HeaderParameter → Int
  | .Reserved => 0 | .Alg => 1 | .Crit => 2 | .ContentType => 3 | .Kid => 4
  | .Iv => 5 | .PartialIv => 6 | .CounterSignature => 7 | .CounterSignature0 => 9
  | .KidContext => 10 | .X5Bag => 32 | .X5Chain => 33 | .X5T => 34 | .X5U => 35
  | .CuphNonce => 256 | .CuphOwnerPubKey => 257

/-- The `HeaderParameter` constants in declaration order. -/
def HeaderParameter.elems : List HeaderParameter :=
  [.Reserved, .Alg, .Crit, .ContentType, .Kid, .Iv, .PartialIv,
   .CounterSignature, .CounterSignature0, .KidContext,
   .X5Bag, .X5Chain, .X5T, .X5U, .CuphNonce, .CuphOwnerPubKey]

/-- Generated `from_i128` for `HeaderParameter`. -/
def HeaderParameter.from_i128 (i : Int) : Option HeaderParameter :=
  regFrom HeaderParameter.elems HeaderParameter.to_i128 i

/-- `HEADER_PARAMETER_PRIVATE_USE_MAX` from the source. -/
def HEADER_PARAMETER_PRIVATE_USE_MAX : Int := -65536

/-- `impl WithPrivateRange for HeaderParameter`. -/
def HeaderParameter.is_private (i : Int) : Bool := i < HEADER_PARAMETER_PRIVATE_USE_MAX

/-- IANA-registered COSE header algorithm parameters. -/
inductive HeaderAlgorithmParameter where
  | PartyVOther | PartyVNonce | PartyVIdentity
  | PartyUOther | PartyUNonce | PartyUIdentity
  | Salt | StaticKeyId | StaticKey | EphemeralKey
deriving DecidableEq

/-- Discriminant values of `HeaderAlgorithmParameter`. -/
def HeaderAlgorithmParameter.to_i128 : HeaderAlgorithmParameter → Int
  | .PartyVOther => -26 | .PartyVNonce => -25 | .PartyVIdentity => -24
  | .PartyUOther => -23 | .PartyUNonce => -22 | .PartyUIdentity => -21
  | .Salt => -20 | .StaticKeyId => -3 | .StaticKey => -2 | .EphemeralKey => -1

/-- The `HeaderAlgorithmParameter` constants in declaration order. -/
def HeaderAlgorithmParameter.elems : List HeaderAlgorithmParameter :=
  [.PartyVOther, .PartyVNonce, .PartyVIdentity, .PartyUOther, .PartyUNonce,
   .PartyUIdentity, .Salt, .StaticKeyId, .StaticKey, .EphemeralKey]

/-- Generated `from_i128` for `HeaderAlgorithmParameter`. -/
def HeaderAlgorithmParameter.from_i128 (i : Int) : Option HeaderAlgorithmParameter :=
  regFrom HeaderAlgorithmParameter.elems HeaderAlgorithmParameter.to_i128 i

/-- IANA-registered COSE algorithms (`Algorithm` in `src/iana/mod.rs`). -/
inductive Algorithm where
  | RS1 | WalnutDSA | RS512 | RS384 | RS256
  | ES256K | HSS_LMS | SHAKE256 | SHA_512 | SHA_384
  | RSAES_OAEP_SHA_512 | RSAES_OAEP_SHA_256 | RSAES_OAEP_RFC_8017_default
  | PS512 | PS384 | PS256 | ES512 | ES384
  | ECDH_SS_A256KW | ECDH_SS_A192KW | ECDH_SS_A128KW
  | ECDH_ES_A256KW | ECDH_ES_A192KW | ECDH_ES_A128KW
  | ECDH_SS_HKDF_512 | ECDH_SS_HKDF_256 | ECDH_ES_HKDF_512 | ECDH_ES_HKDF_256
  | SHAKE128 | SHA_512_256 | SHA_256 | SHA_256_64 | SHA_1
  | Direct_HKDF_AES_256 | Direct_HKDF_AES_128
  | Direct_HKDF_SHA_512 | Direct_HKDF_SHA_256
  | EdDSA | ES256 | Direct | A256KW | A192KW | A128KW
  | A128GCM | A192GCM | A256GCM
  | HMAC_256_64 | HMAC_256_256 | HMAC_384_384 | HMAC_512_512
  | AES_CCM_16_64_128 | AES_CCM_16_64_256 | AES_CCM_64_64_128 | AES_CCM_64_64_256
  | AES_MAC_128_64 | AES_MAC_256_64 | ChaCha20Poly1305
  | AES_MAC_128_128 | AES_MAC_256_128
  | AES_CCM_16_128_128 | AES_CCM_16_128_256 | AES_CCM_64_128_128 | AES_CCM_64_128_256
  | IV_GENERATION
deriving DecidableEq

/-- Discriminant values of `Algorithm` as declared in the source. -/
def Algorithm.to_i128 : Algorithm → Int
  | .RS1 => -65535 | .WalnutDSA => -260 | .RS512 => -259 | .RS384 => -258
  | .RS256 => -257 | .ES256K => -47 | .HSS_LMS => -46 | .SHAKE256 => -45
  | .SHA_512 => -44 | .SHA_384 => -43 | .RSAES_OAEP_SHA_512 => -42
  | .RSAES_OAEP_SHA_256 => -41 | .RSAES_OAEP_RFC_8017_default => -40
  | .PS512 => -39 | .PS384 => -38 | .PS256 => -37 | .ES512 => -36 | .ES384 => -35
  | .ECDH_SS_A256KW => -34 | .ECDH_SS_A192KW => -33 | .ECDH_SS_A128KW => -32
  | .ECDH_ES_A256KW => -31 | .ECDH_ES_A192KW => -30 | .ECDH_ES_A128KW => -29
  | .ECDH_SS_HKDF_512 => -28 | .ECDH_SS_HKDF_256 => -27
  | .ECDH_ES_HKDF_512 => -26 | .ECDH_ES_HKDF_256 => -25
  | .SHAKE128 => -18 | .SHA_512_256 => -17 | .SHA_256 => -16 | .SHA_256_64 => -15
  | .SHA_1 => -14 | .Direct_HKDF_AES_256 => -13 | .Direct_HKDF_AES_128 => -12
  | .Direct_HKDF_SHA_512 => -11 | .Direct_HKDF_SHA_256 => -10
  | .EdDSA => -8 | .ES256 => -7 | .Direct => -6
  | .A256KW => -5 | .A192KW => -4 | .A128KW => -3
  | .A128GCM => 1 | .A192GCM => 2 | .A256GCM => 3
  | .HMAC_256_64 => 4 | .HMAC_256_256 => 5 | .HMAC_384_384 => 6 | .HMAC_512_512 => 7
  | .AES_CCM_16_64_128 => 10 | .AES_CCM_16_64_256 => 11
  | .AES_CCM_64_64_128 => 12 | .AES_CCM_64_64_256 => 13
  | .AES_MAC_128_64 => 14 | .AES_MAC_256_64 => 15 | .ChaCha20Poly1305 => 24
  | .AES_MAC_128_128 => 25 | .AES_MAC_256_128 => 26
  | .AES_CCM_16_128_128 => 30 | .AES_CCM_16_128_256 => 31
  | .AES_CCM_64_128_128 => 32 | .AES_CCM_64_128_256 => 33
  | .IV_GENERATION => 34

/-- The `Algorithm` constants in declaration order. -/
def Algorithm.elems : List Algorithm :=
  [.RS1, .WalnutDSA, .RS512, .RS384, .RS256, .ES256K, .HSS_LMS, .SHAKE256,
   .SHA_512, .SHA_384, .RSAES_OAEP_SHA_512, .RSAES_OAEP_SHA_256,
   .RSAES_OAEP_RFC_8017_default, .PS512, .PS384, .PS256, .ES512, .ES384,
   .ECDH_SS_A256KW, .ECDH_SS_A192KW, .ECDH_SS_A128KW,
   .ECDH_ES_A256KW, .ECDH_ES_A192KW, .ECDH_ES_A128KW,
   .ECDH_SS_HKDF_512, .ECDH_SS_HKDF_256, .ECDH_ES_HKDF_512, .ECDH_ES_HKDF_256,
   .SHAKE128, .SHA_512_256, .SHA_256, .SHA_256_64, .SHA_1,
   .Direct_HKDF_AES_256, .Direct_HKDF_AES_128,
   .Direct_HKDF_SHA_512, .Direct_HKDF_SHA_256,
   .EdDSA, .ES256, .Direct, .A256KW, .A192KW, .A128KW,
   .A128GCM, .A192GCM, .A256GCM,
   .HMAC_256_64, .HMAC_256_256, .HMAC_384_384, .HMAC_512_512,
   .AES_CCM_16_64_128, .AES_CCM_16_64_256, .AES_CCM_64_64_128, .AES_CCM_64_64_256,
   .AES_MAC_128_64, .AES_MAC_256_64, .ChaCha20Poly1305,
   .AES_MAC_128_128, .AES_MAC_256_128,
   .AES_CCM_16_128_128, .AES_CCM_16_128_256, .AES_CCM_64_128_128,
   .AES_CCM_64_128_256, .IV_GENERATION]

/-- Generated `from_i128` for `Algorithm`. -/
def Algorithm.from_i128 (i : Int) : Option Algorithm :=
  regFrom Algorithm.elems Algorithm.to_i128 i

/-- `ALGORITHM_PRIVATE_USE_MAX` from the source. -/
def ALGORITHM_PRIVATE_USE_MAX : Int := -65536

/-- `impl WithPrivateRange for Algorithm`. -/
def Algorithm.is_private (i : Int) : Bool := i < ALGORITHM_PRIVATE_USE_MAX

/-- IANA-registered COSE common key parameters (`KeyParameter`). -/
inductive KeyParameter where
  | Reserved | Kty | Kid | Alg | KeyOps | BaseIv
deriving DecidableEq

/-- Discriminant values of `KeyParameter`. -/
def KeyParameter.to_i128 : KeyParameter → Int
  | .Reserved => 0 | .Kty => 1 | .Kid => 2 | .Alg => 3 | .KeyOps => 4 | .BaseIv => 5

/-- The `KeyParameter` constants in declaration order. -/
def KeyParameter.elems : List KeyParameter :=
  [.Reserved, .Kty, .Kid, .Alg, .KeyOps, .BaseIv]

/-- Generated `from_i128` for `KeyParameter`. -/
def KeyParameter.from_i128 (i : Int) : Option KeyParameter :=
  regFrom KeyParameter.elems KeyParameter.to_i128 i

/-- COSE key parameters for keys of type OKP. -/
inductive OkpKeyParameter where
  | Crv | X | D
deriving DecidableEq

/-- Discriminant values of `OkpKeyParameter`. -/
def OkpKeyParameter.to_i128 : OkpKeyParameter → Int
  | .Crv => -1 | .X => -2 | .D => -4

/-- The `OkpKeyParameter` constants in declaration order. -/
def OkpKeyParameter.elems : List OkpKeyParameter := [.Crv, .X, .D]

/-- Generated `from_i128` for `OkpKeyParameter`. -/
def OkpKeyParameter.from_i128 (i : Int) : Option OkpKeyParameter :=
  regFrom OkpKeyParameter.elems OkpKeyParameter.to_i128 i

/-- COSE key parameters for keys of type EC2. -/
inductive Ec2KeyParameter where
  | Crv | X | Y | D
deriving DecidableEq

/-- Discriminant values of `Ec2KeyParameter`. -/
def Ec2KeyParameter.to_i128 : Ec2KeyParameter → Int
  | .Crv => -1 | .X => -2 | .Y => -3 | .D => -4

/-- The `Ec2KeyParameter` constants in declaration order. -/
def Ec2KeyParameter.elems : List Ec2KeyParameter := [.Crv, .X, .Y, .D]

/-- Generated `from_i128` for `Ec2KeyParameter`. -/
def Ec2KeyParameter.from_i128 (i : Int) : Option Ec2KeyParameter :=
  regFrom Ec2KeyParameter.elems Ec2KeyParameter.to_i128 i

/-- COSE key parameters for keys of type RSA. -/
inductive RsaKeyParameter where
  | N | E | D | P | Q | DP | DQ | QInv | Other | RI | DI | TI
deriving DecidableEq

/-- Discriminant values of `RsaKeyParameter`. -/
def RsaKeyParameter.to_i128 : RsaKeyParameter → Int
  | .N => -1 | .E => -2 | .D => -3 | .P => -4 | .Q => -5 | .DP => -6
  | .DQ => -7 | .QInv => -8 | .Other => -9 | .RI => -10 | .DI => -11 | .TI => -12

/-- The `RsaKeyParameter` constants in declaration order. -/
def RsaKeyParameter.elems : List RsaKeyParameter :=
  [.N, .E, .D, .P, .Q, .DP, .DQ, .QInv, .Other, .RI, .DI, .TI]

/-- Generated `from_i128` for `RsaKeyParameter`. -/
def RsaKeyParameter.from_i128 (i : Int) : Option RsaKeyParameter :=
  regFrom RsaKeyParameter.elems RsaKeyParameter.to_i128 i

/-- COSE key parameters for keys of type Symmetric. -/
inductive SymmetricKeyParameter where
  | K
deriving DecidableEq

/-- Discriminant values of `SymmetricKeyParameter`. -/
def SymmetricKeyParameter.to_i128 : SymmetricKeyParameter → Int
  | .K => -1

/-- The `SymmetricKeyParameter` constants in declaration order. -/
def SymmetricKeyParameter.elems : List SymmetricKeyParameter := [.K]

/-- Generated `from_i128` for `SymmetricKeyParameter`. -/
def SymmetricKeyParameter.from_i128 (i : Int) : Option SymmetricKeyParameter :=
  regFrom SymmetricKeyParameter.elems SymmetricKeyParameter.to_i128 i

/-- COSE key parameters for keys of type HSS/LMS. -/
inductive HssLmsKeyParameter where
  | Pub
deriving DecidableEq

/-- Discriminant values of `HssLmsKeyParameter`. -/
def HssLmsKeyParameter.to_i128 : HssLmsKeyParameter → Int
  | .Pub => -1

/-- The `HssLmsKeyParameter` constants in declaration order. -/
def HssLmsKeyParameter.elems : List HssLmsKeyParameter := [.Pub]

/-- Generated `from_i128` for `HssLmsKeyParameter`. -/
def HssLmsKeyParameter.from_i128 (i : Int) : Option HssLmsKeyParameter :=
  regFrom HssLmsKeyParameter.elems HssLmsKeyParameter.to_i128 i

/-- COSE key parameters for keys of type WalnutDSA. -/
inductive WalnutDsaKeyParameter where
  | N | Q | TValues | Matrix1 | Permutation1 | Matrix2
deriving DecidableEq

/-- Discriminant values of `WalnutDsaKeyParameter`. -/
def WalnutDsaKeyParameter.to_i128 : WalnutDsaKeyParameter → Int
  | .N => -1 | .Q => -2 | .TValues => -3 | .Matrix1 => -4
  | .Permutation1 => -5 | .Matrix2 => -6

/-- The `WalnutDsaKeyParameter` constants in declaration order. -/
def WalnutDsaKeyParameter.elems : List WalnutDsaKeyParameter :=
  [.N, .Q, .TValues, .Matrix1, .Permutation1, .Matrix2]

/-- Generated `from_i128` for `WalnutDsaKeyParameter`. -/
def WalnutDsaKeyParameter.from_i128 (i : Int) : Option WalnutDsaKeyParameter :=
  regFrom WalnutDsaKeyParameter.elems WalnutDsaKeyParameter.to_i128 i

/-- IANA-registered COSE key types (`KeyType` in `src/iana/mod.rs`). -/
inductive KeyType where
  | Reserved | OKP | EC2 | RSA | Symmetric | HSS_LMS | WalnutDSA
deriving DecidableEq

/-- Discriminant values of `KeyType`. -/
def KeyType.to_i128 : KeyType → Int
  | .Reserved => 0 | .OKP => 1 | .EC2 => 2 | .RSA => 3
  | .Symmetric => 4 | .HSS_LMS => 5 | .WalnutDSA => 6

/-- The `KeyType` constants in declaration order. -/
def KeyType.elems : List KeyType :=
  [.Reserved, .OKP, .EC2, .RSA, .Symmetric, .HSS_LMS, .WalnutDSA]

/-- Generated `from_i128` for `KeyType`. -/
def KeyType.from_i128 (i : Int) : Option KeyType :=
  regFrom KeyType.elems KeyType.to_i128 i

/-- IANA-registered COSE elliptic curves. -/
inductive EllipticCurve where
  | Reserved | P_256 | P_384 | P_521 | X25519 | X448 | Ed25519 | Ed448 | Secp256k1
deriving DecidableEq

/-- Discriminant values of `EllipticCurve`. -/
def EllipticCurve.to_i128 : EllipticCurve → Int
  | .Reserved => 0 | .P_256 => 1 | .P_384 => 2 | .P_521 => 3 | .X25519 => 4
  | .X448 => 5 | .Ed25519 => 6 | .Ed448 => 7 | .Secp256k1 => 8

/-- The `EllipticCurve` constants in declaration order. -/
def EllipticCurve.elems : List EllipticCurve :=
  [.Reserved, .P_256, .P_384, .P_521, .X25519, .X448, .Ed25519, .Ed448, .Secp256k1]

/-- Generated `from_i128` for `EllipticCurve`. -/
def EllipticCurve.from_i128 (i : Int) : Option EllipticCurve :=
  regFrom EllipticCurve.elems EllipticCurve.to_i128 i

/-- `ELLIPTIC_CURVE_PRIVATE_USE_MAX` from the source. -/
def ELLIPTIC_CURVE_PRIVATE_USE_MAX : Int := -65536

/-- `impl WithPrivateRange for EllipticCurve`. -/
def EllipticCurve.is_private (i : Int) : Bool := i < ELLIPTIC_CURVE_PRIVATE_USE_MAX

/-- Key operation values (`KeyOperation` in `src/iana/mod.rs`). -/
inductive KeyOperation where
  | Sign | Verify | Encrypt | Decrypt | WrapKey | UnwrapKey
  | DeriveKey | DeriveBits | MacCreate | MacVerify
deriving DecidableEq

/-- Discriminant values of `KeyOperation`. -/
def KeyOperation.to_i128 : KeyOperation → Int
  | .Sign => 1 | .Verify => 2 | .Encrypt => 3 | .Decrypt => 4 | .WrapKey => 5
  | .UnwrapKey => 6 | .DeriveKey => 7 | .DeriveBits => 8
  | .MacCreate => 9 | .MacVerify => 10

/-- The `KeyOperation` constants in declaration order. -/
def KeyOperation.elems : List KeyOperation :=
  [.Sign, .Verify, .Encrypt, .Decrypt, .WrapKey, .UnwrapKey,
   .DeriveKey, .DeriveBits, .MacCreate, .MacVerify]

/-- Generated `from_i128` for `KeyOperation`. -/
def KeyOperation.from_i128 (i : Int) : Option KeyOperation :=
  regFrom KeyOperation.elems KeyOperation.to_i128 i

/-- CBOR tag values for COSE structures. -/
inductive CborTag where
  | CoseEncrypt0 | CoseMac0 | CoseSign1 | Cwt | CoseEncrypt | CoseMac | CoseSign
deriving DecidableEq

/-- Discriminant values of `CborTag`. -/
def CborTag.to_i128 : CborTag → Int
  | .CoseEncrypt0 => 16 | .CoseMac0 => 17 | .CoseSign1 => 18 | .Cwt => 61
  | .CoseEncrypt => 96 | .CoseMac => 97 | .CoseSign => 98

/-- The `CborTag` constants in declaration order. -/
def CborTag.elems : List CborTag :=
  [.CoseEncrypt0, .CoseMac0, .CoseSign1, .Cwt, .CoseEncrypt, .CoseMac, .CoseSign]

/-- Generated `from_i128` for `CborTag`. -/
def CborTag.from_i128 (i : Int) : Option CborTag :=
  regFrom CborTag.elems CborTag.to_i128 i

/-- CoAP content formats (`CoapContentFormat` in `src/iana/mod.rs`). -/
inductive CoapContentFormat where
  | TextPlainUtf8 | CoseEncrypt0 | CoseMac0 | CoseSign1 | LinkFormat | Xml
  | OctetStream | Exi | Json | JsonPatchJson | MergePatchJson | Cbor | Cwt
  | MultipartCore | CborSeq | CoseEncrypt | CoseMac | CoseSign | CoseKey
  | CoseKeySet | SenmlJson | SensmlJson | SenmlCbor | SensmlCbor | SenmlExi
  | SensmlExi | CoapGroupJson | DotsCbor
  | Pkcs7MimeSmimeTypeServerGeneratedKey | Pkcs7MimeSmimeTypeCertsOnly
  | Pkcs7MimeSmimeTypeCmcRequest | Pkcs7MimeSmimeTypeCmcResponse
  | Pkcs8 | Csrattrs | Pkcs10 | PkixCert | SenmlXml | SensmlXml
  | SenmlEtchJson | SenmlEtchCbor | TdJson | VndOcfCbor | Oscore
  | JsonDeflate | CborDeflate | VndOmaLwm2mTlv | VndOmaLwm2mJson | VndOmaLwm2mCbor
deriving DecidableEq

/-- Discriminant values of `CoapContentFormat` as declared in the source. -/
def CoapContentFormat.to_i128 : CoapContentFormat → Int
  | .TextPlainUtf8 => 0 | .CoseEncrypt0 => 16 | .CoseMac0 => 17 | .CoseSign1 => 18
  | .LinkFormat => 40 | .Xml => 41 | .OctetStream => 42 | .Exi => 47 | .Json => 50
  | .JsonPatchJson => 51 | .MergePatchJson => 52 | .Cbor => 60 | .Cwt => 61
  | .MultipartCore => 62 | .CborSeq => 63 | .CoseEncrypt => 96 | .CoseMac => 97
  | .CoseSign => 98 | .CoseKey => 101 | .CoseKeySet => 102 | .SenmlJson => 110
  | .SensmlJson => 111 | .SenmlCbor => 112 | .SensmlCbor => 113 | .SenmlExi => 114
  | .SensmlExi => 115 | .CoapGroupJson => 256 | .DotsCbor => 271
  | .Pkcs7MimeSmimeTypeServerGeneratedKey => 280 | .Pkcs7MimeSmimeTypeCertsOnly => 281
  | .Pkcs7MimeSmimeTypeCmcRequest => 282 | .Pkcs7MimeSmimeTypeCmcResponse => 283
  | .Pkcs8 => 284 | .Csrattrs => 285 | .Pkcs10 => 286 | .PkixCert => 287
  | .SenmlXml => 310 | .SensmlXml => 311 | .SenmlEtchJson => 320
  | .SenmlEtchCbor => 322 | .TdJson => 432 | .VndOcfCbor => 10000 | .Oscore => 10001
  | .JsonDeflate => 11050 | .CborDeflate => 11060 | .VndOmaLwm2mTlv => 11542
  | .VndOmaLwm2mJson => 11543 | .VndOmaLwm2mCbor => 11544

/-- The `CoapContentFormat` constants in declaration order. -/
def CoapContentFormat.elems : List CoapContentFormat :=
  [.TextPlainUtf8, .CoseEncrypt0, .CoseMac0, .CoseSign1, .LinkFormat, .Xml,
   .OctetStream, .Exi, .Json, .JsonPatchJson, .MergePatchJson, .Cbor, .Cwt,
   .MultipartCore, .CborSeq, .CoseEncrypt, .CoseMac, .CoseSign, .CoseKey,
   .CoseKeySet, .SenmlJson, .SensmlJson, .SenmlCbor, .SensmlCbor, .SenmlExi,
   .SensmlExi, .CoapGroupJson, .DotsCbor,
   .Pkcs7MimeSmimeTypeServerGeneratedKey, .Pkcs7MimeSmimeTypeCertsOnly,
   .Pkcs7MimeSmimeTypeCmcRequest, .Pkcs7MimeSmimeTypeCmcResponse,
   .Pkcs8, .Csrattrs, .Pkcs10, .PkixCert, .SenmlXml, .SensmlXml,
   .SenmlEtchJson, .SenmlEtchCbor, .TdJson, .VndOcfCbor, .Oscore,
   .JsonDeflate, .CborDeflate, .VndOmaLwm2mTlv, .VndOmaLwm2mJson, .VndOmaLwm2mCbor]

/-- Generated `from_i128` for `CoapContentFormat`. -/
def CoapContentFormat.from_i128 (i : Int) : Option CoapContentFormat :=
  regFrom CoapContentFormat.elems CoapContentFormat.to_i128 i

end iana

/-- Modelled from the spec: the `EnumI128` trait of `src/iana/mod.rs`
(its blanket use sites outside `src/` delegate to the same single
registry-lookup contract of spec section 4.1). -/
class EnumI128 (α : Type) where
  from_i128 : Int → Option α
  to_i128 : α → Int

instance : EnumI128 iana.KeyType := ⟨iana.KeyType.from_i128, iana.KeyType.to_i128⟩

instance : EnumI128 iana.KeyOperation := ⟨iana.KeyOperation.from_i128, iana.KeyOperation.to_i128⟩

instance : EnumI128 iana.Algorithm := ⟨iana.Algorithm.from_i128, iana.Algorithm.to_i128⟩

instance : EnumI128 iana.KeyParameter := ⟨iana.KeyParameter.from_i128, iana.KeyParameter.to_i128⟩

/-- Modelled from the spec: simple values of the external generic
structured-value codec (spec section 6; `SimpleValue` of the cbor crate). -/
inductive SimpleValue where
  | FalseValue | TrueValue | NullValue | Undefined
deriving DecidableEq

/-- Modelled from the spec: the external generic structured value type
(spec section 6): unsigned/negative integers, byte strings, text strings,
arrays, maps (ordered key/value pair sequences, keys not required unique),
and simple values. -/
inductive Value where
  | unsigned (n : Nat)
  | negative (i : Int)
  | byteString (bs : List Nat)
  | textString (s : String)
  | array (vs : List Value)
  | map (m : List (Value × Value))
  | simple (sv : SimpleValue)

/-- Modelled from the spec: the error type of the codec (spec section 7);
the key codec in `src/key/mod.rs` only ever constructs the
shape/field-mismatch variant `CoseError::UnexpectedType(got, want)`. -/
inductive CoseError where
  | unexpectedType (got want : String)
deriving DecidableEq

/-- Name of the structural shape of a value, for diagnostics. -/
def Value.typeName : Value → String
  | .unsigned _ => "uint"
  | .negative _ => "nint"
  | .byteString _ => "bstr"
  | .textString _ => "tstr"
  | .array _ => "array"
  | .map _ => "map"
  | .simple _ => "simple"

/-- Modelled from the spec: `cbor_type_error` of `src/util` (not under
`src/`), which fails with a type-mismatch error naming the actual shape
encountered and the expected shape (spec sections 4.3 and 7). -/
def cbor_type_error {β : Type} (v : Value) (want : String) : Except CoseError β :=
  .error (.unexpectedType v.typeName want)

/-- Modelled from the spec: the `Label` map-key type (spec section 3), a
signed integer or a text string. -/
inductive Label where
  | int (i : Int)
  | text (s : String)
deriving DecidableEq

/-- Encode an integer as a structured value: non-negative integers use the
unsigned variant, negative ones the negative variant. -/
def intToValue (i : Int) : Value :=
  if 0 ≤ i then .unsigned i.toNat else .negative i

/-- Modelled from the spec: `Label::to_cbor_value` — an integer label emits
its integer, a text label its text (spec section 4.3). -/
def Label.to_cbor_value : Label → Value
  | .int i => intToValue i
  | .text s => .textString s

/-- Modelled from the spec: `Label::from_cbor_value` — integers and text
strings decode to the corresponding label, any other shape is a
type-mismatch error (spec section 4.3 point 2). -/
def Label.from_cbor_value : Value → Except CoseError Label
  | .unsigned n => .ok (.int n)
  | .negative i => .ok (.int i)
  | .textString s => .ok (.text s)
  | v => cbor_type_error v "int or tstr"

/-- Modelled from the spec: the extensible-field wrapper
`RegisteredLabel<R>` (spec sections 3 and 4.2) — either a registry
constant, or a raw integer or text value not in the registry. -/
inductive RegisteredLabel (α : Type) where
  | assigned (c : α)
  | int (i : Int)
  | text (s : String)
deriving DecidableEq

/-- Modelled from the spec: wrapper encoding (spec section 4.2) — the known
variant emits its registry integer, the other variants their raw value
unchanged. -/
def RegisteredLabel.to_cbor_value {α : Type} [EnumI128 α] : RegisteredLabel α → Value
  | .assigned c => intToValue (EnumI128.to_i128 c)
  | .int i => intToValue i
  | .text s => .textString s

/-- Modelled from the spec: wrapper decoding (spec section 4.2) — an
integer is looked up in the registry and wrapped as the known variant on
success, otherwise the raw value is preserved; registries assign no text
constants, so text always wraps as the raw text variant; any other shape is
a type-mismatch error. -/
def RegisteredLabel.from_cbor_value {α : Type} [EnumI128 α] :
    Value → Except CoseError (RegisteredLabel α)
  | .unsigned n =>
    .ok (match EnumI128.from_i128 (α := α) (n : Int) with
         | some c => .assigned c
         | none => .int (n : Int))
  | .negative i =>
    .ok (match EnumI128.from_i128 (α := α) i with
         | some c => .assigned c
         | none => .int i)
  | .textString s => .ok (.text s)
  | v => cbor_type_error v "int or tstr"

/-- `KeyType` of `src/key/mod.rs`: the extensible field over the key-type
registry. -/
abbrev KeyType := RegisteredLabel iana.KeyType

/-- `KeyOperation` of `src/key/mod.rs`: the extensible field over the
key-operation registry. -/
abbrev KeyOperation := RegisteredLabel iana.KeyOperation

/-- Modelled from the spec: `crate::Algorithm`, the extensible field over
the algorithm registry (spec section 3, `alg` entry). -/
abbrev Algorithm := RegisteredLabel iana.Algorithm

/-- Modelled from the spec: the comparison key of an extensible-field
value — equality and ordering are structural over the underlying wire
value (spec sections 3 and 4.2), so a known constant compares as its
registry integer. -/
def RegisteredLabel.ordKey {α : Type} [EnumI128 α] : RegisteredLabel α → Int ⊕ String
  | .assigned c => .inl (EnumI128.to_i128 c)
  | .int i => .inl i
  | .text s => .inr s

/-- Modelled from the spec: strict order on wire values used by the
ordered-set container — integers below text, integers by value, text
lexicographic. -/
def wireKeyLt : Int ⊕ String → Int ⊕ String → Bool
  | .inl i, .inl j => decide (i < j)
  | .inl _, .inr _ => true
  | .inr _, .inl _ => false
  | .inr s, .inr t => decide (s < t)

/-- Modelled from the spec: `BTreeSet::insert` on the sorted-list
representation of the key-operation set — returns the updated set and
whether the value was newly inserted (`false` leaves the set unchanged). -/
def insertKeyOp : List KeyOperation → KeyOperation → List KeyOperation × Bool
  | [], op => ([op], true)
  | a :: rest, op =>
    if op.ordKey = a.ordKey then (a :: rest, false)
    else if wireKeyLt op.ordKey a.ordKey then (op :: a :: rest, true)
    else
      let r := insertKeyOp rest op
      (a :: r.1, r.2)

/-- The key structure `CoseKey` of `src/key/mod.rs`.  `key_ops` is the
`BTreeSet<KeyOperation>` in its canonical sorted-list representation
(ascending in `RegisteredLabel.ordKey` under `wireKeyLt`). -/
structure CoseKey where
  kty : KeyType
  key_id : List Nat
  alg : Option Algorithm
  key_ops : List KeyOperation
  base_iv : List Nat
  params : List (Label × Value)

/-- `Default` for `CoseKey`: the default `KeyType` is
`Assigned(iana::KeyType::Reserved)`, all other fields empty/none. -/
def CoseKey.default : CoseKey :=
  { kty := .assigned .Reserved, key_id := [], alg := none,
    key_ops := [], base_iv := [], params := [] }

/-- The constant `KTY`: `Value::Unsigned(iana::KeyParameter::Kty as u64)`. -/
def KTY : Value := .unsigned 1

/-- The constant `KID`: `Value::Unsigned(iana::KeyParameter::Kid as u64)`. -/
def KID : Value := .unsigned 2

/-- The constant `ALG`: `Value::Unsigned(iana::KeyParameter::Alg as u64)`. -/
def ALG : Value := .unsigned 3

/-- The constant `KEY_OPS`: `Value::Unsigned(iana::KeyParameter::KeyOps as u64)`. -/
def KEY_OPS : Value := .unsigned 4

/-- The constant `BASE_IV`: `Value::Unsigned(iana::KeyParameter::BaseIv as u64)`. -/
def BASE_IV : Value := .unsigned 5

/-- The `key_ops` loop body of `CoseKey::from_cbor_value`: decode each
array element through the wrapper, insert it into the set, and fail if the
insert reports the value already present. -/
def processKeyOps (s : List KeyOperation) : List Value → Except CoseError (List KeyOperation)
  | [] => .ok s
  | v :: rest =>
    match RegisteredLabel.from_cbor_value (α := iana.KeyOperation) v with
    | .error e => .error e
    | .ok op =>
      match insertKeyOp s op with
      | (s', true) => processKeyOps s' rest
      | (_, false) => .error (.unexpectedType "repeated array entry" "unique array label")

/-- One iteration of the entry loop of `CoseKey::from_cbor_value`.  The
source matches the label by value equality against the constants
`KTY`..`BASE_IV` in order (`x if x == KTY => ...`); since those constants
are `Value::Unsigned(1)`..`Value::Unsigned(5)`, the guard chain is exactly
the numeral comparison below, with every other label treated as an
extension parameter. -/
def processEntry (key : CoseKey) (l v : Value) : Except CoseError CoseKey :=
  match l with
  | .unsigned n =>
    if n = 1 then
      match RegisteredLabel.from_cbor_value (α := iana.KeyType) v with
      | .error e => .error e
      | .ok kty => .ok { key with kty := kty }
    else if n = 2 then
      match v with
      | .byteString bs =>
        if bs = [] then .error (.unexpectedType "empty bstr" "non-empty bstr")
        else .ok { key with key_id := bs }
      | v => cbor_type_error v "bstr value"
    else if n = 3 then
      match RegisteredLabel.from_cbor_value (α := iana.Algorithm) v with
      | .error e => .error e
      | .ok alg => .ok { key with alg := some alg }
    else if n = 4 then
      match v with
      | .array key_ops =>
        match processKeyOps key.key_ops key_ops with
        | .error e => .error e
        | .ok s =>
          if s = [] then .error (.unexpectedType "empty array" "non-empty array")
          else .ok { key with key_ops := s }
      | v => cbor_type_error v "array value"
    else if n = 5 then
      match v with
      | .byteString bs =>
        if bs = [] then .error (.unexpectedType "empty bstr" "non-empty bstr")
        else .ok { key with base_iv := bs }
      | v => cbor_type_error v "bstr value"
    else
      match Label.from_cbor_value (.unsigned n) with
      | .error e => .error e
      | .ok label => .ok { key with params := key.params ++ [(label, v)] }
  | l =>
    match Label.from_cbor_value l with
    | .error e => .error e
    | .ok label => .ok { key with params := key.params ++ [(label, v)] }

/-- The entry loop of `CoseKey::from_cbor_value`, fail-fast over the map
entries in wire order. -/
def processEntries (key : CoseKey) : List (Value × Value) → Except CoseError CoseKey
  | [] => .ok key
  | (l, v) :: rest =>
    match processEntry key l v with
    | .error e => .error e
    | .ok key' => processEntries key' rest

/-- `CoseKey::from_cbor_value`: require a map, process the entries in wire
order starting from the default key, then fail if `kty` is still the
reserved default. -/
def CoseKey.from_cbor_value (value : Value) : Except CoseError CoseKey :=
  match value with
  | .map m =>
    match processEntries CoseKey.default m with
    | .error e => .error e
    | .ok key =>
      if key.kty = RegisteredLabel.assigned iana.KeyType.Reserved then
        .error (.unexpectedType "no kty label" "mandatory kty label")
      else .ok key
  | v => cbor_type_error v "map"

/-- `CoseKey::to_cbor_value`: the output map in fixed canonical order.  The
sub-encoders are total, so the `Result` wrapper of the source never
errors; the pushed entries are modelled as list concatenation. -/
def CoseKey.to_cbor_value (key : CoseKey) : Value :=
  .map ((KTY, key.kty.to_cbor_value) ::
    ((if key.key_id = [] then [] else [(KID, .byteString key.key_id)]) ++
     (match key.alg with
      | some alg => [(ALG, alg.to_cbor_value)]
      | none => []) ++
     (if key.key_ops = [] then []
      else [(KEY_OPS, .array (key.key_ops.map RegisteredLabel.to_cbor_value))]) ++
     (if key.base_iv = [] then [] else [(BASE_IV, .byteString key.base_iv)]) ++
     key.params.map (fun p => (p.1.to_cbor_value, p.2))))

/-- Builder for `CoseKey` objects: `CoseKeyBuilder(CoseKey)`. -/
structure CoseKeyBuilder where
  key : CoseKey

/-- The default-initialized builder (generated by the `builder!` macro). -/
def CoseKeyBuilder.new : CoseKeyBuilder := ⟨CoseKey.default⟩

/-- `build(self) -> CoseKey` (generated by the `builder!` macro). -/
def CoseKeyBuilder.build (b : CoseKeyBuilder) : CoseKey := b.key

/-- Passthrough setter for `key_id` (generated by `builder_set!`). -/
def CoseKeyBuilder.key_id (b : CoseKeyBuilder) (id : List Nat) : CoseKeyBuilder :=
  ⟨{ b.key with key_id := id }⟩

/-- Passthrough setter for `base_iv` (generated by `builder_set!`). -/
def CoseKeyBuilder.base_iv (b : CoseKeyBuilder) (iv : List Nat) : CoseKeyBuilder :=
  ⟨{ b.key with base_iv := iv }⟩

/-- `CoseKeyBuilder::algorithm`. -/
def CoseKeyBuilder.algorithm (b : CoseKeyBuilder) (alg : iana.Algorithm) : CoseKeyBuilder :=
  ⟨{ b.key with alg := some (.assigned alg) }⟩

/-- `CoseKeyBuilder::add_key_op`: insert the assigned operation into the
`key_ops` set. -/
def CoseKeyBuilder.add_key_op (b : CoseKeyBuilder) (op : iana.KeyOperation) : CoseKeyBuilder :=
  ⟨{ b.key with key_ops := (insertKeyOp b.key.key_ops (.assigned op)).1 }⟩

/-- `CoseKeyBuilder::new_symmetric_key`. -/
def CoseKeyBuilder.new_symmetric_key (k : List Nat) : CoseKeyBuilder :=
  ⟨{ CoseKey.default with
      kty := .assigned .Symmetric,
      params := [(.int (iana.SymmetricKeyParameter.K.to_i128), .byteString k)] }⟩

/-- `CoseKeyBuilder::param`: the source panics (`panic!`) when the label is
a `KeyParameter` registry constant (its `from_i64`, delegating to the
registry lookup, returns `Some`); the unconditional abort is modelled as
`none`, and the successful path appends the extension parameter. -/
def CoseKeyBuilder.param (b : CoseKeyBuilder) (label : Int) (value : Value) :
    Option CoseKeyBuilder :=
  if (iana.KeyParameter.from_i128 label).isSome then none
  else some ⟨{ b.key with params := b.key.params ++ [(.int label, value)] }⟩

/-! Registry-contract lemmas shared by several claims. -/

/-- The registry contract of spec section 4.1 for one registry:
`from_i128` answers `some c` exactly at `to_i128 c`, `to_i128` is
injective, and the two compose to the identity. -/
def RegistryContract {α : Type} (toInt : α → Int) (fromInt : Int → Option α) : Prop :=
  (∀ (i : Int) (c : α), fromInt i = some c ↔ i = toInt c) ∧
  (∀ a b : α, toInt a = toInt b → a = b) ∧
  (∀ c : α, fromInt (toInt c) = some c)

theorem regFrom_eq_some_iff {α : Type} (elems : List α) (toInt : α → Int)
    (hrt : ∀ c, regFrom elems toInt (toInt c) = some c) (i : Int) (c : α) :
    regFrom elems toInt i = some c ↔ i = toInt c := by
  constructor
  · intro h
    have hp := List.find?_some (by simpa [regFrom] using h)
    have : toInt c = i := by simpa using hp
    exact this.symm
  · intro h
    subst h
    exact hrt c

theorem regContract_of_rt {α : Type} (elems : List α) (toInt : α → Int)
    (hrt : ∀ c, regFrom elems toInt (toInt c) = some c) :
    RegistryContract toInt (regFrom elems toInt) := by
  refine ⟨regFrom_eq_some_iff elems toInt hrt, ?_, hrt⟩
  intro a b h
  have ha := hrt a
  rw [h, hrt b] at ha
  exact (Option.some.inj ha).symm

/-- C8: for every registry generated by the `iana_registry` macro,
`to_i128` is total and injective, and `from_i128` is a total function
returning `some c` exactly when its argument equals `to_i128 c` for a
constant `c` of that registry (hence `from_i128 (to_i128 c) = some c`) and
`none` for every other integer. -/
theorem registry_from_to_contract :
    RegistryContract iana.HeaderParameter.to_i128 iana.HeaderParameter.from_i128 ∧
    RegistryContract iana.HeaderAlgorithmParameter.to_i128 iana.HeaderAlgorithmParameter.from_i128 ∧
    RegistryContract iana.Algorithm.to_i128 iana.Algorithm.from_i128 ∧
    RegistryContract iana.KeyParameter.to_i128 iana.KeyParameter.from_i128 ∧
    RegistryContract iana.OkpKeyParameter.to_i128 iana.OkpKeyParameter.from_i128 ∧
    RegistryContract iana.Ec2KeyParameter.to_i128 iana.Ec2KeyParameter.from_i128 ∧
    RegistryContract iana.RsaKeyParameter.to_i128 iana.RsaKeyParameter.from_i128 ∧
    RegistryContract iana.SymmetricKeyParameter.to_i128 iana.SymmetricKeyParameter.from_i128 ∧
    RegistryContract iana.HssLmsKeyParameter.to_i128 iana.HssLmsKeyParameter.from_i128 ∧
    RegistryContract iana.WalnutDsaKeyParameter.to_i128 iana.WalnutDsaKeyParameter.from_i128 ∧
    RegistryContract iana.KeyType.to_i128 iana.KeyType.from_i128 ∧
    RegistryContract iana.EllipticCurve.to_i128 iana.EllipticCurve.from_i128 ∧
    RegistryContract iana.KeyOperation.to_i128 iana.KeyOperation.from_i128 ∧
    RegistryContract iana.CborTag.to_i128 iana.CborTag.from_i128 ∧
    RegistryContract iana.CoapContentFormat.to_i128 iana.CoapContentFormat.from_i128 :=
  ⟨regContract_of_rt _ _ (by intro c; cases c <;> rfl),
   regContract_of_rt _ _ (by intro c; cases c <;> rfl),
   regContract_of_rt _ _ (by intro c; cases c <;> rfl),
   regContract_of_rt _ _ (by intro c; cases c <;> rfl),
   regContract_of_rt _ _ (by intro c; cases c <;> rfl),
   regContract_of_rt _ _ (by intro c; cases c <;> rfl),
   regContract_of_rt _ _ (by intro c; cases c <;> rfl),
   regContract_of_rt _ _ (by intro c; cases c <;> rfl),
   regContract_of_rt _ _ (by intro c; cases c <;> rfl),
   regContract_of_rt _ _ (by intro c; cases c <;> rfl),
   regContract_of_rt _ _ (by intro c; cases c <;> rfl),
   regContract_of_rt _ _ (by intro c; cases c <;> rfl),
   regContract_of_rt _ _ (by intro c; cases c <;> rfl),
   regContract_of_rt _ _ (by intro c; cases c <;> rfl),
   regContract_of_rt _ _ (by intro c; cases c <;> rfl)⟩

/-- Witness for C8: the contract applied at concrete registry points. -/
theorem registry_from_to_contract_witness :
    iana.KeyType.from_i128 2 = some iana.KeyType.EC2 ∧
    iana.Algorithm.from_i128 (-7) = some iana.Algorithm.ES256 ∧
    iana.CoapContentFormat.from_i128 11544 = some iana.CoapContentFormat.VndOmaLwm2mCbor :=
  ⟨(registry_from_to_contract.2.2.2.2.2.2.2.2.2.2.1.1 2 iana.KeyType.EC2).mpr (by decide),
   (registry_from_to_contract.2.2.1.1 (-7) iana.Algorithm.ES256).mpr (by decide),
   (registry_from_to_contract.2.2.2.2.2.2.2.2.2.2.2.2.2.2.1 11544
      iana.CoapContentFormat.VndOmaLwm2mCbor).mpr (by decide)⟩

/-- C9: for the three registries with a private-use boundary, `is_private`
holds exactly on integers strictly below `-65536`; in particular it is
false at `-65536` and true at `-65537`. -/
theorem private_range_boundary :
    (∀ i : Int, iana.HeaderParameter.is_private i = true ↔ i < -65536) ∧
    (∀ i : Int, iana.Algorithm.is_private i = true ↔ i < -65536) ∧
    (∀ i : Int, iana.EllipticCurve.is_private i = true ↔ i < -65536) ∧
    (iana.HeaderParameter.is_private (-65536) = false ∧
     iana.HeaderParameter.is_private (-65537) = true) ∧
    (iana.Algorithm.is_private (-65536) = false ∧
     iana.Algorithm.is_private (-65537) = true) ∧
    (iana.EllipticCurve.is_private (-65536) = false ∧
     iana.EllipticCurve.is_private (-65537) = true) := by
  refine ⟨?_, ?_, ?_, by decide, by decide, by decide⟩
  all_goals intro i
  all_goals
    simp [iana.HeaderParameter.is_private, iana.Algorithm.is_private,
      iana.EllipticCurve.is_private, iana.HEADER_PARAMETER_PRIVATE_USE_MAX,
      iana.ALGORITHM_PRIVATE_USE_MAX, iana.ELLIPTIC_CURVE_PRIVATE_USE_MAX]

/-- Witness for C9: the boundary predicate applied at a concrete private
integer. -/
theorem private_range_boundary_witness :
    iana.Algorithm.is_private (-70000) = true :=
  (private_range_boundary.2.1 (-70000)).mpr (by decide)

/-- C7: `CoseKeyBuilder::param` aborts (modelled as `none`) exactly when
the integer label is a constant of the common key-parameter registry
(`KeyParameter`, whose constants are the integers 0 through 5); for every
other integer label it appends `(Label::Int(label), value)` to the key's
`params` and returns normally. -/
theorem builder_param_guard (b : CoseKeyBuilder) (label : Int) (value : Value) :
    (CoseKeyBuilder.param b label value = none ↔
      ∃ c : iana.KeyParameter, iana.KeyParameter.to_i128 c = label) ∧
    ((∃ c : iana.KeyParameter, iana.KeyParameter.to_i128 c = label) ↔
      0 ≤ label ∧ label ≤ 5) ∧
    ((∀ c : iana.KeyParameter, iana.KeyParameter.to_i128 c ≠ label) →
      CoseKeyBuilder.param b label value =
        some ⟨{ b.key with params := b.key.params ++ [(.int label, value)] }⟩) := by
  have hcontract := registry_from_to_contract.2.2.2.1
  have hsome : (iana.KeyParameter.from_i128 label).isSome = true ↔
      ∃ c : iana.KeyParameter, iana.KeyParameter.to_i128 c = label := by
    rw [Option.isSome_iff_exists]
    constructor
    · rintro ⟨c, hc⟩
      exact ⟨c, ((hcontract.1 label c).mp hc).symm⟩
    · rintro ⟨c, hc⟩
      exact ⟨c, (hcontract.1 label c).mpr hc.symm⟩
  refine ⟨?_, ?_, ?_⟩
  · rw [CoseKeyBuilder.param]
    constructor
    · intro h
      rw [← hsome]
      by_contra hne
      simp [hne] at h
    · intro h
      simp [hsome.mpr h]
  · constructor
    · rintro ⟨c, hc⟩
      subst hc
      cases c <;> simp [iana.KeyParameter.to_i128]
    · rintro ⟨h0, h5⟩
      interval_cases label
      · exact ⟨.Reserved, rfl⟩
      · exact ⟨.Kty, rfl⟩
      · exact ⟨.Kid, rfl⟩
      · exact ⟨.Alg, rfl⟩
      · exact ⟨.KeyOps, rfl⟩
      · exact ⟨.BaseIv, rfl⟩
  · intro h
    have : (iana.KeyParameter.from_i128 label).isSome = false := by
      rw [Bool.eq_false_iff]
      intro hs
      obtain ⟨c, hc⟩ := hsome.mp hs
      exact h c hc
    rw [CoseKeyBuilder.param, this]
    simp

/-- Witness for C7: the guard fires at the reserved label 1 and lets the
extension label -1 through. -/
theorem builder_param_guard_witness :
    CoseKeyBuilder.param CoseKeyBuilder.new 1 (.unsigned 0) = none ∧
    CoseKeyBuilder.param CoseKeyBuilder.new (-1) (.unsigned 0) =
      some ⟨{ CoseKey.default with params := [(.int (-1), .unsigned 0)] }⟩ :=
  ⟨(builder_param_guard CoseKeyBuilder.new 1 (.unsigned 0)).1.mpr ⟨.Kty, rfl⟩,
   (builder_param_guard CoseKeyBuilder.new (-1) (.unsigned 0)).2.2
     (by intro c; cases c <;> decide)⟩

/-! Well-formedness of extensible-field values and wrapper round trips. -/

/-- An extensible-field value is well formed when a raw integer variant
does not duplicate a registry constant; decoding always produces
well-formed values because it prefers the known variant (spec section
4.2), and the builder only constructs known variants, so every validly
constructed value satisfies this. -/
def RegisteredLabel.wf {α : Type} [EnumI128 α] : RegisteredLabel α → Prop
  | .assigned _ => True
  | .int i => EnumI128.from_i128 (α := α) i = none
  | .text _ => True

instance {α : Type} [EnumI128 α] [DecidableEq α] (rl : RegisteredLabel α) :
    Decidable rl.wf :=
  match rl with
  | .assigned _ => isTrue trivial
  | .int i => (inferInstance : Decidable (EnumI128.from_i128 (α := α) i = none))
  | .text _ => isTrue trivial

theorem keyType_rt (c : iana.KeyType) :
    iana.KeyType.from_i128 (iana.KeyType.to_i128 c) = some c := by
  cases c <;> rfl

theorem keyOperation_rt (c : iana.KeyOperation) :
    iana.KeyOperation.from_i128 (iana.KeyOperation.to_i128 c) = some c := by
  cases c <;> rfl

theorem algorithm_rt (c : iana.Algorithm) :
    iana.Algorithm.from_i128 (iana.Algorithm.to_i128 c) = some c := by
  cases c <;> rfl

theorem registeredLabel_from_to {α : Type} [EnumI128 α]
    (hrt : ∀ c : α, EnumI128.from_i128 (α := α) (EnumI128.to_i128 c) = some c)
    (rl : RegisteredLabel α) (h : rl.wf) :
    RegisteredLabel.from_cbor_value (α := α) rl.to_cbor_value = .ok rl := by
  cases rl with
  | assigned c =>
    rw [RegisteredLabel.to_cbor_value, intToValue]
    by_cases h0 : 0 ≤ EnumI128.to_i128 c
    · rw [if_pos h0, RegisteredLabel.from_cbor_value, Int.toNat_of_nonneg h0, hrt c]
    · rw [if_neg h0, RegisteredLabel.from_cbor_value, hrt c]
  | int i =>
    rw [RegisteredLabel.wf] at h
    rw [RegisteredLabel.to_cbor_value, intToValue]
    by_cases h0 : 0 ≤ i
    · rw [if_pos h0, RegisteredLabel.from_cbor_value, Int.toNat_of_nonneg h0, h]
    · rw [if_neg h0, RegisteredLabel.from_cbor_value, h]
  | text s => rfl

theorem label_from_to (l : Label) :
    Label.from_cbor_value l.to_cbor_value = .ok l := by
  cases l with
  | int i =>
    rw [Label.to_cbor_value, intToValue]
    by_cases h0 : 0 ≤ i
    · rw [if_pos h0, Label.from_cbor_value, Int.toNat_of_nonneg h0]
    · rw [if_neg h0, Label.from_cbor_value]
  | text s => rfl

/-! Order properties of the wire-value key and set insertion. -/

theorem wireKeyLt_irrefl (x : Int ⊕ String) : wireKeyLt x x = false := by
  cases x <;> simp [wireKeyLt]

theorem wireKeyLt_asymm {x y : Int ⊕ String} (h : wireKeyLt x y = true) :
    wireKeyLt y x = false := by
  cases x with
  | inl i =>
    cases y with
    | inl j =>
      simp only [wireKeyLt, decide_eq_true_eq] at h
      simp only [wireKeyLt, decide_eq_false_iff_not]
      omega
    | inr t => simp [wireKeyLt]
  | inr s =>
    cases y with
    | inl j => simp [wireKeyLt] at h
    | inr t =>
      simp only [wireKeyLt, decide_eq_true_eq] at h
      simp only [wireKeyLt, decide_eq_false_iff_not]
      exact lt_asymm h

theorem wireKeyLt_trans {x y z : Int ⊕ String} (h₁ : wireKeyLt x y = true)
    (h₂ : wireKeyLt y z = true) : wireKeyLt x z = true := by
  cases x with
  | inl i =>
    cases z with
    | inl l =>
      cases y with
      | inl j =>
        simp only [wireKeyLt, decide_eq_true_eq] at h₁ h₂ ⊢
        omega
      | inr t => simp [wireKeyLt] at h₂
    | inr t => simp [wireKeyLt]
  | inr s =>
    cases y with
    | inl j => simp [wireKeyLt] at h₁
    | inr t =>
      cases z with
      | inl l => simp [wireKeyLt] at h₂
      | inr u =>
        simp only [wireKeyLt, decide_eq_true_eq] at h₁ h₂ ⊢
        exact lt_trans h₁ h₂

theorem wireKeyLt_total {x y : Int ⊕ String} (h : x ≠ y) :
    wireKeyLt x y = true ∨ wireKeyLt y x = true := by
  cases x with
  | inl i =>
    cases y with
    | inl j =>
      simp only [wireKeyLt, decide_eq_true_eq]
      have : i ≠ j := fun he => h (by rw [he])
      omega
    | inr t => simp [wireKeyLt]
  | inr s =>
    cases y with
    | inl j => simp [wireKeyLt]
    | inr t =>
      simp only [wireKeyLt, decide_eq_true_eq]
      have : s ≠ t := fun he => h (by rw [he])
      exact lt_or_gt_of_ne this

theorem wireKeyLt_ne {x y : Int ⊕ String} (h : wireKeyLt x y = true) : x ≠ y := by
  intro he
  subst he
  rw [wireKeyLt_irrefl] at h
  exact Bool.false_ne_true h

/-- Elements of the set after an insert come from the old set or are the
inserted value. -/
theorem insertKeyOp_mem {s : List KeyOperation} {op b : KeyOperation}
    (h : b ∈ (insertKeyOp s op).1) : b ∈ s ∨ b = op := by
  induction s with
  | nil =>
    simp only [insertKeyOp, List.mem_singleton] at h
    exact Or.inr h
  | cons a rest ih =>
    by_cases he : op.ordKey = a.ordKey
    · rw [insertKeyOp, if_pos he] at h
      exact Or.inl h
    · by_cases hlt : wireKeyLt op.ordKey a.ordKey = true
      · rw [insertKeyOp, if_neg he, if_pos hlt] at h
        rcases List.mem_cons.mp h with h | h
        · exact Or.inr h
        · exact Or.inl h
      · simp only [insertKeyOp, if_neg he, if_neg hlt] at h
        rcases List.mem_cons.mp h with h | h
        · exact Or.inl (by rw [h]; exact List.mem_cons_self a rest)
        · rcases ih h with h | h
          · exact Or.inl (List.mem_cons_of_mem a h)
          · exact Or.inr h

/-- Inserting a value strictly above every element appends it at the end
and reports a fresh insertion. -/
theorem insertKeyOp_append {s : List KeyOperation} {op : KeyOperation}
    (h : ∀ a ∈ s, wireKeyLt a.ordKey op.ordKey = true) :
    insertKeyOp s op = (s ++ [op], true) := by
  induction s with
  | nil => rfl
  | cons a rest ih =>
    have hlt := h a (List.mem_cons_self a rest)
    have hne : op.ordKey ≠ a.ordKey := fun he => wireKeyLt_ne hlt he.symm
    have hnlt : ¬ wireKeyLt op.ordKey a.ordKey = true := by
      rw [wireKeyLt_asymm hlt]
      exact Bool.false_ne_true
    simp only [insertKeyOp, if_neg hne, if_neg hnlt,
      ih (fun b hb => h b (List.mem_cons_of_mem a hb)), List.cons_append]

/-- Insertion preserves strict sortedness of the set representation. -/
theorem insertKeyOp_sorted {s : List KeyOperation} {op : KeyOperation}
    (h : List.Pairwise (fun a b => wireKeyLt a.ordKey b.ordKey = true) s) :
    List.Pairwise (fun a b => wireKeyLt a.ordKey b.ordKey = true)
      (insertKeyOp s op).1 := by
  induction s with
  | nil => simp [insertKeyOp]
  | cons a rest ih =>
    rw [List.pairwise_cons] at h
    obtain ⟨ha, hrest⟩ := h
    by_cases he : op.ordKey = a.ordKey
    · simp only [insertKeyOp, if_pos he]
      exact List.Pairwise.cons ha hrest
    · by_cases hlt : wireKeyLt op.ordKey a.ordKey = true
      · simp only [insertKeyOp, if_neg he, if_pos hlt]
        refine List.Pairwise.cons ?_ (List.Pairwise.cons ha hrest)
        intro b hb
        rcases List.mem_cons.mp hb with hb | hb
        · rw [hb]; exact hlt
        · exact wireKeyLt_trans hlt (ha b hb)
      · simp only [insertKeyOp, if_neg he, if_neg hlt]
        have halt : wireKeyLt a.ordKey op.ordKey = true := by
          rcases wireKeyLt_total he with hx | hx
          · exact absurd hx hlt
          · exact hx
        refine List.Pairwise.cons ?_ (ih hrest)
        intro b hb
        rcases insertKeyOp_mem hb with hb | hb
        · exact ha b hb
        · rw [hb]; exact halt

/-- On a sorted set, a fresh insertion means no element shares the
inserted value's key. -/
theorem insertKeyOp_fresh {s : List KeyOperation} {op : KeyOperation}
    (hs : List.Pairwise (fun a b => wireKeyLt a.ordKey b.ordKey = true) s)
    (h : (insertKeyOp s op).2 = true) :
    ¬ ∃ a ∈ s, a.ordKey = op.ordKey := by
  induction s with
  | nil => simp
  | cons a rest ih =>
    rw [List.pairwise_cons] at hs
    obtain ⟨ha, hrest⟩ := hs
    by_cases he : op.ordKey = a.ordKey
    · simp [insertKeyOp, if_pos he] at h
    · by_cases hlt : wireKeyLt op.ordKey a.ordKey = true
      · rintro ⟨b, hb, hbe⟩
        rcases List.mem_cons.mp hb with hb | hb
        · exact he (by rw [hbe.symm, hb])
        · have hx := wireKeyLt_trans hlt (ha b hb)
          rw [hbe] at hx
          rw [wireKeyLt_irrefl] at hx
          exact Bool.false_ne_true hx
      · have h' : (insertKeyOp rest op).2 = true := by
          simpa [insertKeyOp, if_neg he, if_neg hlt] using h
        rintro ⟨b, hb, hbe⟩
        rcases List.mem_cons.mp hb with hb | hb
        · exact he (by rw [hbe.symm, hb])
        · exact ih hrest h' ⟨b, hb, hbe⟩

/-- A duplicate-key insertion is reported exactly when some element of
the set shares the inserted value's key. -/
theorem insertKeyOp_dup {s : List KeyOperation} {op : KeyOperation}
    (h : (insertKeyOp s op).2 = false) :
    ∃ a ∈ s, a.ordKey = op.ordKey := by
  induction s with
  | nil => simp [insertKeyOp] at h
  | cons a rest ih =>
    by_cases he : op.ordKey = a.ordKey
    · exact ⟨a, List.mem_cons_self a rest, he.symm⟩
    · by_cases hlt : wireKeyLt op.ordKey a.ordKey = true
      · simp [insertKeyOp, if_neg he, if_pos hlt] at h
      · have h' : (insertKeyOp rest op).2 = false := by
          simpa [insertKeyOp, if_neg he, if_neg hlt] using h
        obtain ⟨b, hb, hbe⟩ := ih h'
        exact ⟨b, List.mem_cons_of_mem a hb, hbe⟩

/-- On a `true` insertion the old elements and the new value are all in
the result. -/
theorem insertKeyOp_sub {s : List KeyOperation} {op : KeyOperation}
    (h : (insertKeyOp s op).2 = true) :
    (∀ a ∈ s, a ∈ (insertKeyOp s op).1) ∧ op ∈ (insertKeyOp s op).1 := by
  induction s with
  | nil => simp [insertKeyOp]
  | cons a rest ih =>
    by_cases he : op.ordKey = a.ordKey
    · simp [insertKeyOp, if_pos he] at h
    · by_cases hlt : wireKeyLt op.ordKey a.ordKey = true
      · simp only [insertKeyOp, if_neg he, if_pos hlt]
        exact ⟨fun b hb => List.mem_cons_of_mem op hb, List.mem_cons_self op _⟩
      · have h' : (insertKeyOp rest op).2 = true := by
          simpa [insertKeyOp, if_neg he, if_neg hlt] using h
        obtain ⟨hsub, hop⟩ := ih h'
        simp only [insertKeyOp, if_neg he, if_neg hlt]
        refine ⟨?_, List.mem_cons_of_mem a hop⟩
        intro b hb
        rcases List.mem_cons.mp hb with hb | hb
        · rw [hb]; exact List.mem_cons_self a _
        · exact List.mem_cons_of_mem a (hsub b hb)

/-! Decomposition lemmas for the decode entry loop. -/

theorem processEntries_append_ok {k k' : CoseKey} {m₁ : List (Value × Value)}
    (h : processEntries k m₁ = .ok k') (m₂ : List (Value × Value)) :
    processEntries k (m₁ ++ m₂) = processEntries k' m₂ := by
  induction m₁ generalizing k with
  | nil =>
    simp only [processEntries] at h
    cases h
    rw [List.nil_append]
  | cons p rest ih =>
    obtain ⟨l, v⟩ := p
    rw [List.cons_append]
    simp only [processEntries] at h ⊢
    cases hpe : processEntry k l v with
    | error e => rw [hpe] at h; exact Except.noConfusion h
    | ok k₀ => rw [hpe] at h; exact ih h

theorem processEntries_append_err {k : CoseKey} {e : CoseError}
    {m₁ : List (Value × Value)} (h : processEntries k m₁ = .error e)
    (m₂ : List (Value × Value)) :
    processEntries k (m₁ ++ m₂) = .error e := by
  induction m₁ generalizing k with
  | nil => simp [processEntries] at h
  | cons p rest ih =>
    obtain ⟨l, v⟩ := p
    rw [List.cons_append]
    simp only [processEntries] at h ⊢
    cases hpe : processEntry k l v with
    | error e' => rw [hpe] at h; exact h
    | ok k₀ => rw [hpe] at h; exact ih h

/-- If some entry of the map fails from every state, the whole entry loop
never succeeds. -/
theorem processEntries_no_ok {m : List (Value × Value)}
    (hx : ∃ p ∈ m, ∀ (c k' : CoseKey), processEntry c p.1 p.2 ≠ .ok k') :
    ∀ (k k' : CoseKey), processEntries k m ≠ .ok k' := by
  induction m with
  | nil => simp at hx
  | cons p rest ih =>
    obtain ⟨q, hq, hfail⟩ := hx
    intro k k' hok
    obtain ⟨l, v⟩ := p
    simp only [processEntries] at hok
    cases hpe : processEntry k l v with
    | error e => rw [hpe] at hok; exact Except.noConfusion hok
    | ok k₀ =>
      rw [hpe] at hok
      rcases List.mem_cons.mp hq with hq | hq
      · exact hfail k k₀ (by rw [hq]; exact hpe)
      · exact ih ⟨q, hq, hfail⟩ k₀ k' hok

/-- Decoding the encoding of a strictly ascending list of well-formed key
operations inserts every element afresh, appending to the accumulator. -/
theorem processKeyOps_encoded (l : List KeyOperation) :
    ∀ acc : List KeyOperation,
    (∀ op ∈ l, RegisteredLabel.wf op) →
    (∀ a ∈ acc, ∀ b ∈ l, wireKeyLt a.ordKey b.ordKey = true) →
    List.Pairwise (fun a b => wireKeyLt a.ordKey b.ordKey = true) l →
    processKeyOps acc (l.map RegisteredLabel.to_cbor_value) = .ok (acc ++ l) := by
  induction l with
  | nil => intro acc _ _ _; simp [processKeyOps]
  | cons x rest ih =>
    intro acc hwf hacc hsort
    rw [List.map_cons]
    rw [List.pairwise_cons] at hsort
    obtain ⟨hx, hrest⟩ := hsort
    have hdec : RegisteredLabel.from_cbor_value (α := iana.KeyOperation)
        x.to_cbor_value = .ok x :=
      registeredLabel_from_to keyOperation_rt x (hwf x (List.mem_cons_self x rest))
    have hins : insertKeyOp acc x = (acc ++ [x], true) :=
      insertKeyOp_append (fun a ha => hacc a ha x (List.mem_cons_self x rest))
    simp only [processKeyOps, hdec, hins]
    have hassoc : acc ++ x :: rest = (acc ++ [x]) ++ rest := by simp
    rw [hassoc]
    refine ih (acc ++ [x]) (fun op hop => hwf op (List.mem_cons_of_mem x hop)) ?_ hrest
    intro a ha b hb
    rcases List.mem_append.mp ha with ha | ha
    · exact hacc a ha b (List.mem_cons_of_mem x hb)
    · rw [List.mem_singleton.mp ha]
      exact hx b hb

/-- A label collides with one of the five fixed key-structure slots. -/
def FixedLabel (l : Label) : Prop :=
  l = .int 1 ∨ l = .int 2 ∨ l = .int 3 ∨ l = .int 4 ∨ l = .int 5

theorem processEntry_kty {c : CoseKey} {v : Value} {kt : KeyType}
    (h : RegisteredLabel.from_cbor_value (α := iana.KeyType) v = .ok kt) :
    processEntry c (.unsigned 1) v = .ok { c with kty := kt } := by
  simp [processEntry, h]

theorem seg_kid (c : CoseKey) (bs : List Nat) (hc : c.key_id = []) :
    processEntries c (if bs = [] then [] else [(KID, Value.byteString bs)]) =
      .ok { c with key_id := bs } := by
  by_cases h : bs = []
  · subst h
    rw [if_pos rfl, processEntries]
    cases c
    simp_all
  · rw [if_neg h]
    simp [processEntries, processEntry, KID, h]

theorem seg_alg (c : CoseKey) (a : Option Algorithm) (seg : List (Value × Value))
    (hseg : seg = match a with | some alg => [(ALG, alg.to_cbor_value)] | none => [])
    (hwf : ∀ x ∈ a, RegisteredLabel.wf x) (hc : c.alg = none) :
    processEntries c seg = .ok { c with alg := a } := by
  subst hseg
  cases a with
  | none =>
    rw [processEntries]
    cases c
    simp_all
  | some alg =>
    have hdec : RegisteredLabel.from_cbor_value (α := iana.Algorithm)
        alg.to_cbor_value = .ok alg :=
      registeredLabel_from_to algorithm_rt alg (hwf alg (by simp))
    simp [processEntries, processEntry, ALG, hdec]

theorem seg_ops (c : CoseKey) (l : List KeyOperation) (hc : c.key_ops = [])
    (hwf : ∀ op ∈ l, RegisteredLabel.wf op)
    (hsort : List.Pairwise (fun a b => wireKeyLt a.ordKey b.ordKey = true) l) :
    processEntries c
      (if l = [] then []
       else [(KEY_OPS, Value.array (l.map RegisteredLabel.to_cbor_value))]) =
      .ok { c with key_ops := l } := by
  by_cases h : l = []
  · subst h
    rw [if_pos rfl, processEntries]
    cases c
    simp_all
  · rw [if_neg h]
    have hops : processKeyOps c.key_ops (l.map RegisteredLabel.to_cbor_value) = .ok l := by
      rw [hc]
      simpa using processKeyOps_encoded l [] hwf (by simp) hsort
    simp [processEntries, processEntry, KEY_OPS, hops, h]

theorem seg_biv (c : CoseKey) (bs : List Nat) (hc : c.base_iv = []) :
    processEntries c (if bs = [] then [] else [(BASE_IV, Value.byteString bs)]) =
      .ok { c with base_iv := bs } := by
  by_cases h : bs = []
  · subst h
    rw [if_pos rfl, processEntries]
    cases c
    simp_all
  · rw [if_neg h]
    simp [processEntries, processEntry, BASE_IV, h]

theorem processEntry_param (c : CoseKey) (l : Label) (v : Value)
    (h : ¬ FixedLabel l) :
    processEntry c l.to_cbor_value v = .ok { c with params := c.params ++ [(l, v)] } := by
  cases l with
  | text s => simp [Label.to_cbor_value, processEntry, Label.from_cbor_value]
  | int i =>
    have hne : ¬ (i = 1 ∨ i = 2 ∨ i = 3 ∨ i = 4 ∨ i = 5) := by
      simpa [FixedLabel] using h
    rw [Label.to_cbor_value, intToValue]
    by_cases h0 : 0 ≤ i
    · rw [if_pos h0]
      have e1 : ¬ (i.toNat = 1) := fun hx => hne (Or.inl (by omega))
      have e2 : ¬ (i.toNat = 2) := fun hx => hne (Or.inr (Or.inl (by omega)))
      have e3 : ¬ (i.toNat = 3) := fun hx => hne (Or.inr (Or.inr (Or.inl (by omega))))
      have e4 : ¬ (i.toNat = 4) :=
        fun hx => hne (Or.inr (Or.inr (Or.inr (Or.inl (by omega)))))
      have e5 : ¬ (i.toNat = 5) :=
        fun hx => hne (Or.inr (Or.inr (Or.inr (Or.inr (by omega)))))
      simp only [processEntry, if_neg e1, if_neg e2, if_neg e3, if_neg e4, if_neg e5,
        Label.from_cbor_value]
      rw [Int.toNat_of_nonneg h0]
    · rw [if_neg h0]
      simp [processEntry, Label.from_cbor_value]

theorem processEntries_params (c : CoseKey) (ps : List (Label × Value))
    (h : ∀ p ∈ ps, ¬ FixedLabel p.1) :
    processEntries c (ps.map fun p => (p.1.to_cbor_value, p.2)) =
      .ok { c with params := c.params ++ ps } := by
  induction ps generalizing c with
  | nil =>
    rw [List.map_nil, processEntries]
    cases c
    simp
  | cons p rest ih =>
    obtain ⟨l, v⟩ := p
    rw [List.map_cons]
    simp only [processEntries,
      processEntry_param c l v (h _ (List.mem_cons_self _ _))]
    rw [ih _ (fun q hq => h q (List.mem_cons_of_mem _ hq))]
    simp

/-- Validly constructed key objects: the extensible fields are well formed
(raw integers never shadow a registry constant — guaranteed by
construction, spec section 4.2), the key-operation set is in its sorted
canonical form (the `BTreeSet` invariant), the key type is not the
reserved in-memory default, and no extension parameter reuses one of the
five fixed labels. -/
def CoseKey.Valid (k : CoseKey) : Prop :=
  RegisteredLabel.wf k.kty ∧
  k.kty ≠ RegisteredLabel.assigned iana.KeyType.Reserved ∧
  (∀ x ∈ k.alg, RegisteredLabel.wf x) ∧
  (∀ op ∈ k.key_ops, RegisteredLabel.wf op) ∧
  List.Pairwise (fun a b : KeyOperation => wireKeyLt a.ordKey b.ordKey = true) k.key_ops ∧
  (∀ p ∈ k.params, ¬ FixedLabel p.1)

/-- C1: for every validly constructed key object, decoding the structured
value produced by encoding it yields the key object back:
`CoseKey::from_cbor_value(CoseKey::to_cbor_value(k)) == Ok(k)`. -/
theorem cose_key_round_trip (k : CoseKey) (h : CoseKey.Valid k) :
    CoseKey.from_cbor_value (CoseKey.to_cbor_value k) = .ok k := by
  obtain ⟨hkty, hne, halg, hopswf, hsort, hparams⟩ := h
  have hdec : RegisteredLabel.from_cbor_value (α := iana.KeyType)
      k.kty.to_cbor_value = .ok k.kty :=
    registeredLabel_from_to keyType_rt k.kty hkty
  rw [CoseKey.to_cbor_value, CoseKey.from_cbor_value]
  simp only [KTY, List.append_assoc]
  simp only [processEntries, processEntry_kty hdec]
  rw [processEntries_append_ok (seg_kid _ k.key_id rfl),
    processEntries_append_ok (seg_alg _ k.alg _ rfl halg rfl),
    processEntries_append_ok (seg_ops _ k.key_ops rfl hopswf hsort),
    processEntries_append_ok (seg_biv _ k.base_iv rfl),
    processEntries_params _ k.params hparams]
  simp [hne, CoseKey.default]

/-- Witness for C1: the round trip evaluated on a concrete valid key. -/
theorem cose_key_round_trip_witness :
    CoseKey.Valid
      { kty := .assigned .EC2, key_id := [1, 2],
        alg := some (.assigned .ES256),
        key_ops := [.assigned .Verify, .assigned .Decrypt],
        base_iv := [9],
        params := [(.int (-1), .unsigned 1), (.text "x", .byteString [3])] } ∧
    CoseKey.from_cbor_value
      (CoseKey.to_cbor_value
        { kty := .assigned .EC2, key_id := [1, 2],
          alg := some (.assigned .ES256),
          key_ops := [.assigned .Verify, .assigned .Decrypt],
          base_iv := [9],
          params := [(.int (-1), .unsigned 1), (.text "x", .byteString [3])] }) =
      .ok
        { kty := .assigned .EC2, key_id := [1, 2],
          alg := some (.assigned .ES256),
          key_ops := [.assigned .Verify, .assigned .Decrypt],
          base_iv := [9],
          params := [(.int (-1), .unsigned 1), (.text "x", .byteString [3])] } := by
  constructor
  · refine ⟨trivial, by simp, ?_, ?_, ?_, ?_⟩
    · intro x hx
      rw [Option.mem_def, Option.some.injEq] at hx
      rw [← hx]
      exact trivial
    · intro op hop
      rcases List.mem_cons.mp hop with h | h
      · rw [h]; exact trivial
      · rw [List.mem_singleton.mp h]; exact trivial
    · exact List.Pairwise.cons (by intro b hb; rw [List.mem_singleton.mp hb]; rfl)
        (List.pairwise_singleton _ _)
    · intro p hp
      rcases List.mem_cons.mp hp with h | h
      · rw [h]; simp [FixedLabel]
      · rw [List.mem_singleton.mp h]; simp [FixedLabel]
  · exact cose_key_round_trip _
      ⟨trivial, by simp, by rintro x ⟨rfl⟩ <;> exact trivial,
       by intro op hop; rcases List.mem_cons.mp hop with h | h;
          · rw [h]; exact trivial
          · rw [List.mem_singleton.mp h]; exact trivial,
       List.Pairwise.cons (by intro b hb; rw [List.mem_singleton.mp hb]; rfl)
         (List.pairwise_singleton _ _),
       by intro p hp; rcases List.mem_cons.mp hp with h | h;
          · rw [h]; simp [FixedLabel]
          · rw [List.mem_singleton.mp h]; simp [FixedLabel]⟩

/-- C3: encoding always emits the map in the fixed canonical order — kty
first (always), key_id only if non-empty, alg only if present, key_ops
only if non-empty, base_iv only if non-empty, then every extension
parameter in stored order; the order depends only on the field values. -/
theorem to_cbor_canonical_order (k : CoseKey) :
    CoseKey.to_cbor_value k =
      .map ([(KTY, k.kty.to_cbor_value)] ++
        (if k.key_id = [] then [] else [(KID, Value.byteString k.key_id)]) ++
        (match k.alg with
         | some alg => [(ALG, alg.to_cbor_value)]
         | none => []) ++
        (if k.key_ops = [] then []
         else [(KEY_OPS, Value.array (k.key_ops.map RegisteredLabel.to_cbor_value))]) ++
        (if k.base_iv = [] then [] else [(BASE_IV, Value.byteString k.base_iv)]) ++
        k.params.map (fun p => (p.1.to_cbor_value, p.2))) := by
  rw [CoseKey.to_cbor_value]
  simp [List.append_assoc]

theorem foldl_insert_sorted (l : List KeyOperation) :
    ∀ s : List KeyOperation,
    List.Pairwise (fun a b => wireKeyLt a.ordKey b.ordKey = true) s →
    List.Pairwise (fun a b => wireKeyLt a.ordKey b.ordKey = true)
      (l.foldl (fun s op => (insertKeyOp s op).1) s) := by
  induction l with
  | nil => intro s hs; exact hs
  | cons x rest ih =>
    intro s hs
    rw [List.foldl_cons]
    exact ih _ (insertKeyOp_sorted hs)

/-- C2 corrected: the key-operation set is kept in ascending order of the
wire-value key, every insertion sequence produces that sorted form, and
encoding emits the members in the stored sorted order — not in insertion
order. -/
theorem key_ops_sorted_emission :
    (∀ l : List KeyOperation,
      List.Pairwise (fun a b => wireKeyLt a.ordKey b.ordKey = true)
        (l.foldl (fun s op => (insertKeyOp s op).1) [])) ∧
    (∀ k : CoseKey, k.key_ops ≠ [] →
      ∃ pre post : List (Value × Value),
        CoseKey.to_cbor_value k =
          .map (pre ++ (KEY_OPS,
            Value.array (k.key_ops.map RegisteredLabel.to_cbor_value)) :: post)) := by
  constructor
  · intro l
    exact foldl_insert_sorted l [] (List.Pairwise.nil)
  · intro k h
    refine ⟨(KTY, k.kty.to_cbor_value) ::
        ((if k.key_id = [] then [] else [(KID, Value.byteString k.key_id)]) ++
         (match k.alg with
          | some alg => [(ALG, alg.to_cbor_value)]
          | none => [])),
      (if k.base_iv = [] then [] else [(BASE_IV, Value.byteString k.base_iv)]) ++
        k.params.map (fun p => (p.1.to_cbor_value, p.2)), ?_⟩
    rw [CoseKey.to_cbor_value, if_neg h]
    simp [List.append_assoc]

/-- Witness for C2's corrected statement: the emission shape applied to a
concrete built key. -/
theorem key_ops_sorted_emission_witness :
    ∃ pre post : List (Value × Value),
      CoseKey.to_cbor_value
        (((CoseKeyBuilder.new.add_key_op .Decrypt).add_key_op .Encrypt).build) =
        .map (pre ++ (KEY_OPS, Value.array
          ((((CoseKeyBuilder.new.add_key_op .Decrypt).add_key_op
              .Encrypt).build.key_ops).map RegisteredLabel.to_cbor_value)) :: post) :=
  key_ops_sorted_emission.2 _ (by decide)

/-- Counterexample to C2 as stated: inserting Decrypt (value 4) then
Encrypt (value 3) emits the array `[3, 4]`, which is not the
insertion-order array `[4, 3]`. -/
theorem key_ops_insertion_order_counterexample :
    CoseKey.to_cbor_value
      (((CoseKeyBuilder.new.add_key_op .Decrypt).add_key_op .Encrypt).build) =
      .map [(KTY, Value.unsigned 0),
            (KEY_OPS, Value.array [Value.unsigned 3, Value.unsigned 4])] ∧
    Value.array [Value.unsigned 3, Value.unsigned 4] ≠
      Value.array [Value.unsigned 4, Value.unsigned 3] := by
  constructor
  · rfl
  · intro h
    rw [Value.array.injEq] at h
    exact absurd (List.head_eq_of_cons_eq h) (by
      intro hx
      rw [Value.unsigned.injEq] at hx
      omega)

/-! Lemmas on how single entries change the accumulating key. -/

theorem processEntry_preserve_kty {k k' : CoseKey} {l v : Value}
    (hl : l ≠ Value.unsigned 1) (h : processEntry k l v = .ok k') :
    k'.kty = k.kty := by
  cases l with
  | unsigned n =>
    have h1 : ¬ (n = 1) := fun hx => hl (by rw [hx])
    simp only [processEntry, if_neg h1] at h
    repeat' split at h
    all_goals first
      | exact Except.noConfusion h
      | (injection h with h; rw [← h])
  | negative i =>
    simp only [processEntry] at h
    injection h with h
    rw [← h]
  | textString s =>
    simp only [processEntry] at h
    injection h with h
    rw [← h]
  | byteString bs => exact Except.noConfusion h
  | array vs => exact Except.noConfusion h
  | map m => exact Except.noConfusion h
  | simple sv => exact Except.noConfusion h

theorem processEntries_preserve_kty {m : List (Value × Value)} :
    ∀ {k k' : CoseKey}, (∀ p ∈ m, p.1 ≠ Value.unsigned 1) →
    processEntries k m = .ok k' → k'.kty = k.kty := by
  induction m with
  | nil =>
    intro k k' _ h
    simp only [processEntries] at h
    cases h
    rfl
  | cons p rest ih =>
    intro k k' hm h
    obtain ⟨l, v⟩ := p
    simp only [processEntries] at h
    cases hpe : processEntry k l v with
    | error e => rw [hpe] at h; exact Except.noConfusion h
    | ok k₀ =>
      rw [hpe] at h
      have h₀ := processEntry_preserve_kty (hm (l, v) (List.mem_cons_self _ _)) hpe
      rw [ih (fun q hq => hm q (List.mem_cons_of_mem _ hq)) h, h₀]

/-- C4 amended: a map in which label 1 never appears always fails to
decode; when its entries themselves all process without error, the
failure is the missing-mandatory-field ("no kty label") error.  An entry
mapping label 1 to the reserved value 0 leaves `kty` at the reserved
default, and any entry list that leaves `kty` reserved fails with the
same error. -/
theorem missing_kty_fails :
    (∀ m : List (Value × Value), (∀ p ∈ m, p.1 ≠ Value.unsigned 1) →
      ∀ k', CoseKey.from_cbor_value (.map m) ≠ .ok k') ∧
    (∀ m : List (Value × Value), (∀ p ∈ m, p.1 ≠ Value.unsigned 1) →
      ∀ k, processEntries CoseKey.default m = .ok k →
      CoseKey.from_cbor_value (.map m) =
        .error (.unexpectedType "no kty label" "mandatory kty label")) ∧
    (∀ k : CoseKey, processEntry k (.unsigned 1) (.unsigned 0) =
      .ok { k with kty := .assigned .Reserved }) ∧
    (∀ m : List (Value × Value), ∀ k, processEntries CoseKey.default m = .ok k →
      k.kty = RegisteredLabel.assigned iana.KeyType.Reserved →
      CoseKey.from_cbor_value (.map m) =
        .error (.unexpectedType "no kty label" "mandatory kty label")) := by
  have hreserved : ∀ m : List (Value × Value), ∀ k,
      processEntries CoseKey.default m = .ok k →
      k.kty = RegisteredLabel.assigned iana.KeyType.Reserved →
      CoseKey.from_cbor_value (.map m) =
        .error (.unexpectedType "no kty label" "mandatory kty label") := by
    intro m k hok hkty
    rw [CoseKey.from_cbor_value, hok]
    simp [hkty]
  refine ⟨?_, ?_, fun k => rfl, hreserved⟩
  · intro m hm k' hok
    rw [CoseKey.from_cbor_value] at hok
    cases hpe : processEntries CoseKey.default m with
    | error e => rw [hpe] at hok; exact Except.noConfusion hok
    | ok key =>
      rw [hpe] at hok
      have hkr : key.kty = RegisteredLabel.assigned iana.KeyType.Reserved :=
        processEntries_preserve_kty hm hpe
      simp [hkr] at hok
  · intro m hm k hok
    exact hreserved m k hok (processEntries_preserve_kty hm hok)

/-- Witness for C4's amended statement: the no-kty error on a concrete
map without label 1, and the never-succeeds part on the same map. -/
theorem missing_kty_fails_witness :
    CoseKey.from_cbor_value (.map [(Value.unsigned 2, Value.byteString [7])]) =
      .error (.unexpectedType "no kty label" "mandatory kty label") ∧
    (∀ k', CoseKey.from_cbor_value
      (.map [(Value.unsigned 2, Value.byteString [7])]) ≠ .ok k') :=
  ⟨missing_kty_fails.2.1 _ (by simp) _ rfl, missing_kty_fails.1 _ (by simp)⟩

/-- Counterexample to C4 as stated: the map `{2: h''}` lacks label 1, but
decoding fails with the empty-byte-string error, not the
missing-mandatory-field error. -/
theorem missing_kty_error_counterexample :
    CoseKey.from_cbor_value (.map [(Value.unsigned 2, Value.byteString [])]) =
      .error (.unexpectedType "empty bstr" "non-empty bstr") ∧
    CoseError.unexpectedType "empty bstr" "non-empty bstr" ≠
      CoseError.unexpectedType "no kty label" "mandatory kty label" :=
  ⟨rfl, by decide⟩

/-- C5 amended: a map with label 2 or label 5 bound to an empty byte
string never decodes; when the entries before such an entry process
without error the failure is the invalid-field ("empty bstr") error.  A
label-4 entry holding an empty array fails with the empty-array error
when the entries before it process without error and the accumulated
key-operation set is still empty (an earlier non-empty label-4 occurrence
defeats the check — see the counterexample). -/
theorem empty_field_fails :
    (∀ m : List (Value × Value),
      (∃ p ∈ m, (p.1 = Value.unsigned 2 ∨ p.1 = Value.unsigned 5) ∧
        p.2 = Value.byteString []) →
      ∀ k', CoseKey.from_cbor_value (.map m) ≠ .ok k') ∧
    (∀ n : Nat, (n = 2 ∨ n = 5) → ∀ m₁ m₂ : List (Value × Value), ∀ k,
      processEntries CoseKey.default m₁ = .ok k →
      CoseKey.from_cbor_value
        (.map (m₁ ++ (Value.unsigned n, Value.byteString []) :: m₂)) =
        .error (.unexpectedType "empty bstr" "non-empty bstr")) ∧
    (∀ m₁ m₂ : List (Value × Value), ∀ k,
      processEntries CoseKey.default m₁ = .ok k → k.key_ops = [] →
      CoseKey.from_cbor_value
        (.map (m₁ ++ (Value.unsigned 4, Value.array []) :: m₂)) =
        .error (.unexpectedType "empty array" "non-empty array")) := by
  refine ⟨?_, ?_, ?_⟩
  · intro m hx k' hok
    rw [CoseKey.from_cbor_value] at hok
    cases hpe : processEntries CoseKey.default m with
    | error e => rw [hpe] at hok; exact Except.noConfusion hok
    | ok key =>
      obtain ⟨p, hp, hlab, hval⟩ := hx
      refine processEntries_no_ok ⟨p, hp, ?_⟩ CoseKey.default key hpe
      intro c k₀
      rcases hlab with h2 | h2
      all_goals rw [h2, hval]
      all_goals simp [processEntry]
  · intro n hn m₁ m₂ k hok
    rw [CoseKey.from_cbor_value]
    rw [processEntries_append_ok hok]
    have hent : processEntry k (Value.unsigned n) (Value.byteString []) =
        .error (.unexpectedType "empty bstr" "non-empty bstr") := by
      rcases hn with h | h
      all_goals rw [h]
      all_goals simp [processEntry]
    simp only [processEntries, hent]
  · intro m₁ m₂ k hok hops
    rw [CoseKey.from_cbor_value]
    rw [processEntries_append_ok hok]
    have hent : processEntry k (Value.unsigned 4) (Value.array []) =
        .error (.unexpectedType "empty array" "non-empty array") := by
      simp [processEntry, processKeyOps, hops]
    simp only [processEntries, hent]

/-- Witness for C5's amended statement: the empty-bstr and empty-array
errors raised on concrete maps with a valid first entry. -/
theorem empty_field_fails_witness :
    CoseKey.from_cbor_value (.map [(Value.unsigned 1, Value.unsigned 4),
      (Value.unsigned 2, Value.byteString [])]) =
      .error (.unexpectedType "empty bstr" "non-empty bstr") ∧
    CoseKey.from_cbor_value (.map [(Value.unsigned 1, Value.unsigned 4),
      (Value.unsigned 4, Value.array [])]) =
      .error (.unexpectedType "empty array" "non-empty array") :=
  ⟨empty_field_fails.2.1 2 (Or.inl rfl) [(Value.unsigned 1, Value.unsigned 4)] [] _ rfl,
   empty_field_fails.2.2 [(Value.unsigned 1, Value.unsigned 4)] [] _ rfl rfl⟩

/-- Counterexample to C5 as stated: in `{1: 4, 4: [1], 4: []}` label 4
maps (in its second occurrence) to a zero-length array, yet decoding
succeeds because the set accumulated by the first occurrence is already
non-empty. -/
theorem empty_field_error_counterexample :
    CoseKey.from_cbor_value (.map [(Value.unsigned 1, Value.unsigned 4),
      (Value.unsigned 4, Value.array [Value.unsigned 1]),
      (Value.unsigned 4, Value.array [])]) =
      .ok { kty := .assigned .Symmetric, key_id := [], alg := none,
            key_ops := [.assigned .Sign], base_iv := [], params := [] } := by
  rfl

/-! Machinery for the duplicate key-operation error. -/

/-- Shapes for which the extensible-field wrapper decode cannot raise a
type error. -/
def IntOrText : Value → Prop
  | .unsigned _ => True
  | .negative _ => True
  | .textString _ => True
  | _ => False

theorem decode_op_total (v : Value) (h : IntOrText v) :
    ∃ op : KeyOperation,
      RegisteredLabel.from_cbor_value (α := iana.KeyOperation) v = .ok op := by
  cases v with
  | unsigned n => exact ⟨_, rfl⟩
  | negative i => exact ⟨_, rfl⟩
  | textString s => exact ⟨_, rfl⟩
  | byteString bs => exact h.elim
  | array vs => exact h.elim
  | map m => exact h.elim
  | simple sv => exact h.elim

theorem processKeyOps_cons (s : List KeyOperation) (v : Value) (rest : List Value)
    {op : KeyOperation}
    (h : RegisteredLabel.from_cbor_value (α := iana.KeyOperation) v = .ok op) :
    processKeyOps s (v :: rest) =
      if (insertKeyOp s op).2 then processKeyOps (insertKeyOp s op).1 rest
      else .error (.unexpectedType "repeated array entry" "unique array label") := by
  simp only [processKeyOps, h]
  rcases hins : insertKeyOp s op with ⟨s', b⟩
  cases b <;> simp

/-- If some array element decodes to an operation whose key is already in
the (sorted) set, the key-operation loop fails with the duplicate-entry
error. -/
theorem processKeyOps_mem_err (ops : List Value) :
    ∀ s : List KeyOperation,
    List.Pairwise (fun a b => wireKeyLt a.ordKey b.ordKey = true) s →
    (∀ v ∈ ops, IntOrText v) →
    (∃ v ∈ ops, ∃ op : KeyOperation,
      RegisteredLabel.from_cbor_value (α := iana.KeyOperation) v = .ok op ∧
      ∃ a ∈ s, a.ordKey = op.ordKey) →
    processKeyOps s ops =
      .error (.unexpectedType "repeated array entry" "unique array label") := by
  induction ops with
  | nil => intro s _ _ hx; simp at hx
  | cons w rest ih =>
    intro s hs hit hx
    obtain ⟨opw, hw⟩ := decode_op_total w (hit w (List.mem_cons_self _ _))
    rw [processKeyOps_cons s w rest hw]
    cases hins : (insertKeyOp s opw).2 with
    | false => exact if_neg (by simp)
    | true =>
      rw [if_pos rfl]
      obtain ⟨hsub, -⟩ := insertKeyOp_sub hins
      refine ih (insertKeyOp s opw).1 (insertKeyOp_sorted hs)
        (fun u hu => hit u (List.mem_cons_of_mem _ hu)) ?_
      obtain ⟨v, hv, op, hop, a, ha, hak⟩ := hx
      rcases List.mem_cons.mp hv with hv | hv
      · rw [hv] at hop
        rw [hop] at hw
        cases hw
        exact absurd ⟨a, ha, hak⟩ (insertKeyOp_fresh hs hins)
      · exact ⟨v, hv, op, hop, a, hsub a ha, hak⟩

/-- An array containing two elements that decode to the same operation
value makes the key-operation loop fail with the duplicate-entry error
(all elements int or text, set sorted). -/
theorem processKeyOps_dup_err (l₁ : List Value) :
    ∀ (s : List KeyOperation) (v : Value) (l₂ : List Value) (w : Value) (l₃ : List Value),
    List.Pairwise (fun a b => wireKeyLt a.ordKey b.ordKey = true) s →
    (∀ u ∈ l₁ ++ (v :: (l₂ ++ (w :: l₃))), IntOrText u) →
    RegisteredLabel.from_cbor_value (α := iana.KeyOperation) v =
      RegisteredLabel.from_cbor_value (α := iana.KeyOperation) w →
    processKeyOps s (l₁ ++ (v :: (l₂ ++ (w :: l₃)))) =
      .error (.unexpectedType "repeated array entry" "unique array label") := by
  induction l₁ with
  | nil =>
    intro s v l₂ w l₃ hs hit heq
    obtain ⟨opv, hv⟩ := decode_op_total v (hit v (by simp))
    rw [List.nil_append, processKeyOps_cons s v _ hv]
    cases hins : (insertKeyOp s opv).2 with
    | false => exact if_neg (by simp)
    | true =>
      rw [if_pos rfl]
      obtain ⟨-, hopv⟩ := insertKeyOp_sub hins
      refine processKeyOps_mem_err _ _ (insertKeyOp_sorted hs) ?_ ?_
      · intro u hu
        exact hit u (by simp [List.mem_cons_of_mem v hu])
      · refine ⟨w, ?_, opv, ?_, opv, hopv, rfl⟩
        · exact List.mem_append_right l₂ (List.mem_cons_self w l₃)
        · rw [← heq]; exact hv
  | cons x rest ih =>
    intro s v l₂ w l₃ hs hit heq
    obtain ⟨opx, hx⟩ := decode_op_total x (hit x (List.mem_cons_self _ _))
    rw [List.cons_append, processKeyOps_cons s x _ hx]
    cases hins : (insertKeyOp s opx).2 with
    | false => exact if_neg (by simp)
    | true =>
      rw [if_pos rfl]
      exact ih _ v l₂ w l₃ (insertKeyOp_sorted hs)
        (fun u hu => hit u (List.mem_cons_of_mem _ hu)) heq

/-- Success of the key-operation loop preserves sortedness of the set. -/
theorem processKeyOps_sorted {ops : List Value} :
    ∀ {s s' : List KeyOperation},
    List.Pairwise (fun a b => wireKeyLt a.ordKey b.ordKey = true) s →
    processKeyOps s ops = .ok s' →
    List.Pairwise (fun a b => wireKeyLt a.ordKey b.ordKey = true) s' := by
  induction ops with
  | nil =>
    intro s s' hs h
    simp only [processKeyOps] at h
    cases h
    exact hs
  | cons v rest ih =>
    intro s s' hs h
    cases hd : RegisteredLabel.from_cbor_value (α := iana.KeyOperation) v with
    | error e =>
      simp only [processKeyOps, hd] at h
      exact Except.noConfusion h
    | ok op =>
      simp only [processKeyOps, hd] at h
      rcases hins : insertKeyOp s op with ⟨s₀, b⟩
      rw [hins] at h
      have hsort : List.Pairwise
          (fun a b => wireKeyLt a.ordKey b.ordKey = true) (insertKeyOp s op).1 :=
        insertKeyOp_sorted hs
      rw [hins] at hsort
      cases b with
      | false => exact Except.noConfusion h
      | true => exact ih hsort h

/-- Every successful entry step either leaves the key-operation set
untouched or replaces it by a successful run of the key-operation loop
on it. -/
theorem processEntry_cases {k k' : CoseKey} {l v : Value}
    (h : processEntry k l v = .ok k') :
    k'.key_ops = k.key_ops ∨
      ∃ (ops : List Value) (s : List KeyOperation),
        k'.key_ops = s ∧ processKeyOps k.key_ops ops = .ok s := by
  cases l with
  | unsigned n =>
    simp only [processEntry] at h
    repeat' split at h
    all_goals first
      | exact Except.noConfusion h
      | (injection h with h; rw [← h]; exact Or.inl rfl)
      | (injection h with h; rw [← h]; exact Or.inr ⟨_, _, rfl, by assumption⟩)
  | negative i =>
    simp only [processEntry] at h
    injection h with h
    rw [← h]
    exact Or.inl rfl
  | textString s =>
    simp only [processEntry] at h
    injection h with h
    rw [← h]
    exact Or.inl rfl
  | byteString bs => exact Except.noConfusion h
  | array vs => exact Except.noConfusion h
  | map m => exact Except.noConfusion h
  | simple sv => exact Except.noConfusion h

theorem processEntry_sorted {k k' : CoseKey} {l v : Value}
    (hs : List.Pairwise (fun a b => wireKeyLt a.ordKey b.ordKey = true) k.key_ops)
    (h : processEntry k l v = .ok k') :
    List.Pairwise (fun a b => wireKeyLt a.ordKey b.ordKey = true) k'.key_ops := by
  rcases processEntry_cases h with h0 | ⟨ops, s, h1, hpo⟩
  · rw [h0]; exact hs
  · rw [h1]; exact processKeyOps_sorted hs hpo

theorem processEntries_sorted {m : List (Value × Value)} :
    ∀ {k k' : CoseKey},
    List.Pairwise (fun a b => wireKeyLt a.ordKey b.ordKey = true) k.key_ops →
    processEntries k m = .ok k' →
    List.Pairwise (fun a b => wireKeyLt a.ordKey b.ordKey = true) k'.key_ops := by
  induction m with
  | nil =>
    intro k k' hs h
    simp only [processEntries] at h
    cases h
    exact hs
  | cons p rest ih =>
    intro k k' hs h
    obtain ⟨l, v⟩ := p
    simp only [processEntries] at h
    cases hpe : processEntry k l v with
    | error e => rw [hpe] at h; exact Except.noConfusion h
    | ok k₀ => rw [hpe] at h; exact ih (processEntry_sorted hs hpe) h

/-- C6 amended: a map whose label-4 array contains two elements decoding
to the same key-operation value fails with the duplicate-entry error,
provided the entries before the label-4 entry process without error and
every array element is an int or text value (otherwise an earlier error
preempts the duplicate check — see the counterexample). -/
theorem dup_key_op_fails :
    ∀ (m₁ : List (Value × Value)) (k : CoseKey)
      (l₁ l₂ l₃ : List Value) (v w : Value) (m₂ : List (Value × Value)),
    processEntries CoseKey.default m₁ = .ok k →
    (∀ u ∈ l₁ ++ (v :: (l₂ ++ (w :: l₃))), IntOrText u) →
    RegisteredLabel.from_cbor_value (α := iana.KeyOperation) v =
      RegisteredLabel.from_cbor_value (α := iana.KeyOperation) w →
    CoseKey.from_cbor_value
      (.map (m₁ ++ (Value.unsigned 4, Value.array (l₁ ++ (v :: (l₂ ++ (w :: l₃))))) :: m₂)) =
      .error (.unexpectedType "repeated array entry" "unique array label") := by
  intro m₁ k l₁ l₂ l₃ v w m₂ hok hit heq
  have hsort : List.Pairwise (fun a b => wireKeyLt a.ordKey b.ordKey = true) k.key_ops :=
    processEntries_sorted (by simp [CoseKey.default]) hok
  have hdup := processKeyOps_dup_err l₁ k.key_ops v l₂ w l₃ hsort hit heq
  rw [CoseKey.from_cbor_value, processEntries_append_ok hok]
  have hent : processEntry k (Value.unsigned 4)
      (Value.array (l₁ ++ (v :: (l₂ ++ (w :: l₃))))) =
      .error (.unexpectedType "repeated array entry" "unique array label") := by
    simp [processEntry, hdup]
  simp only [processEntries, hent]

/-- Witness for C6's amended statement: the duplicate-entry error on the
concrete map `{1: 4, 4: [1, 1]}`. -/
theorem dup_key_op_fails_witness :
    CoseKey.from_cbor_value (.map [(Value.unsigned 1, Value.unsigned 4),
      (Value.unsigned 4, Value.array [Value.unsigned 1, Value.unsigned 1])]) =
      .error (.unexpectedType "repeated array entry" "unique array label") := by
  have h := dup_key_op_fails [(Value.unsigned 1, Value.unsigned 4)] _
    [] [] [] (Value.unsigned 1) (Value.unsigned 1) [] rfl
    (by intro u hu; rcases List.mem_cons.mp hu with h | h;
        · rw [h]; exact trivial
        · rw [List.mem_singleton.mp h]; exact trivial)
    rfl
  simpa using h

/-- Counterexample to C6 as stated: in `{1: h'01', 4: [1, 1]}` the label-4
array repeats an operation value, but decoding fails with an earlier type
error (byte string offered for kty), not the duplicate-entry error. -/
theorem dup_key_op_error_counterexample :
    CoseKey.from_cbor_value (.map [(Value.unsigned 1, Value.byteString [1]),
      (Value.unsigned 4, Value.array [Value.unsigned 1, Value.unsigned 1])]) =
      .error (.unexpectedType "bstr" "int or tstr") ∧
    CoseError.unexpectedType "bstr" "int or tstr" ≠
      CoseError.unexpectedType "repeated array entry" "unique array label" :=
  ⟨rfl, by decide⟩

/-! Machinery for last-occurrence-wins and key-operation accumulation. -/

/-- Two accumulating keys that agree on every field except possibly the
fixed field numbered `n` (params always agree). -/
def SameExcept (n : Nat) (k₁ k₂ : CoseKey) : Prop :=
  (n ≠ 1 → k₁.kty = k₂.kty) ∧ (n ≠ 2 → k₁.key_id = k₂.key_id) ∧
  (n ≠ 3 → k₁.alg = k₂.alg) ∧ (n ≠ 4 → k₁.key_ops = k₂.key_ops) ∧
  (n ≠ 5 → k₁.base_iv = k₂.base_iv) ∧ k₁.params = k₂.params

theorem coseKey_ext {a b : CoseKey} (h1 : a.kty = b.kty) (h2 : a.key_id = b.key_id)
    (h3 : a.alg = b.alg) (h4 : a.key_ops = b.key_ops) (h5 : a.base_iv = b.base_iv)
    (h6 : a.params = b.params) : a = b := by
  cases a
  cases b
  simp_all

theorem processEntry_preserve_key_id {k k' : CoseKey} {l v : Value}
    (hl : l ≠ Value.unsigned 2) (h : processEntry k l v = .ok k') :
    k'.key_id = k.key_id := by
  cases l with
  | unsigned n =>
    have h2 : ¬ (n = 2) := fun hx => hl (by rw [hx])
    simp only [processEntry] at h
    repeat' split at h
    all_goals first
      | omega
      | exact Except.noConfusion h
      | (injection h with h; rw [← h])
  | negative i => simp only [processEntry] at h; injection h with h; rw [← h]
  | textString s => simp only [processEntry] at h; injection h with h; rw [← h]
  | byteString bs => exact Except.noConfusion h
  | array vs => exact Except.noConfusion h
  | map m => exact Except.noConfusion h
  | simple sv => exact Except.noConfusion h

theorem processEntry_preserve_alg {k k' : CoseKey} {l v : Value}
    (hl : l ≠ Value.unsigned 3) (h : processEntry k l v = .ok k') :
    k'.alg = k.alg := by
  cases l with
  | unsigned n =>
    have h3 : ¬ (n = 3) := fun hx => hl (by rw [hx])
    simp only [processEntry] at h
    repeat' split at h
    all_goals first
      | omega
      | exact Except.noConfusion h
      | (injection h with h; rw [← h])
  | negative i => simp only [processEntry] at h; injection h with h; rw [← h]
  | textString s => simp only [processEntry] at h; injection h with h; rw [← h]
  | byteString bs => exact Except.noConfusion h
  | array vs => exact Except.noConfusion h
  | map m => exact Except.noConfusion h
  | simple sv => exact Except.noConfusion h

theorem processEntry_preserve_ops {k k' : CoseKey} {l v : Value}
    (hl : l ≠ Value.unsigned 4) (h : processEntry k l v = .ok k') :
    k'.key_ops = k.key_ops := by
  cases l with
  | unsigned n =>
    have h4 : ¬ (n = 4) := fun hx => hl (by rw [hx])
    simp only [processEntry] at h
    repeat' split at h
    all_goals first
      | omega
      | exact Except.noConfusion h
      | (injection h with h; rw [← h])
  | negative i => simp only [processEntry] at h; injection h with h; rw [← h]
  | textString s => simp only [processEntry] at h; injection h with h; rw [← h]
  | byteString bs => exact Except.noConfusion h
  | array vs => exact Except.noConfusion h
  | map m => exact Except.noConfusion h
  | simple sv => exact Except.noConfusion h

theorem processEntry_preserve_biv {k k' : CoseKey} {l v : Value}
    (hl : l ≠ Value.unsigned 5) (h : processEntry k l v = .ok k') :
    k'.base_iv = k.base_iv := by
  cases l with
  | unsigned n =>
    have h5 : ¬ (n = 5) := fun hx => hl (by rw [hx])
    simp only [processEntry] at h
    repeat' split at h
    all_goals first
      | omega
      | exact Except.noConfusion h
      | (injection h with h; rw [← h])
  | negative i => simp only [processEntry] at h; injection h with h; rw [← h]
  | textString s => simp only [processEntry] at h; injection h with h; rw [← h]
  | byteString bs => exact Except.noConfusion h
  | array vs => exact Except.noConfusion h
  | map m => exact Except.noConfusion h
  | simple sv => exact Except.noConfusion h

theorem processEntry_preserve_params {k k' : CoseKey} {n : Nat} {v : Value}
    (hn : n = 1 ∨ n = 2 ∨ n = 3 ∨ n = 4 ∨ n = 5)
    (h : processEntry k (.unsigned n) v = .ok k') :
    k'.params = k.params := by
  simp only [processEntry] at h
  repeat' split at h
  all_goals first
    | omega
    | exact Except.noConfusion h
    | (injection h with h; rw [← h])

/-- A fixed-field entry (labels 1, 2, 3, 5) only rewrites its own field. -/
theorem processEntry_sameExcept {n : Nat} (hn : n = 1 ∨ n = 2 ∨ n = 3 ∨ n = 5)
    {k k' : CoseKey} {v : Value} (h : processEntry k (.unsigned n) v = .ok k') :
    SameExcept n k' k := by
  refine ⟨fun hx => processEntry_preserve_kty (fun he => hx (Value.unsigned.inj he)) h,
    fun hx => processEntry_preserve_key_id (fun he => hx (Value.unsigned.inj he)) h,
    fun hx => processEntry_preserve_alg (fun he => hx (Value.unsigned.inj he)) h,
    fun hx => processEntry_preserve_ops (fun he => hx (Value.unsigned.inj he)) h,
    fun hx => processEntry_preserve_biv (fun he => hx (Value.unsigned.inj he)) h,
    processEntry_preserve_params (by rcases hn with h | h | h | h <;> simp [h]) h⟩

theorem processKeyOps_append (a b : List Value) :
    ∀ s : List KeyOperation,
    processKeyOps s (a ++ b) =
      match processKeyOps s a with
      | .error e => .error e
      | .ok s' => processKeyOps s' b := by
  induction a with
  | nil => intro s; simp [processKeyOps]
  | cons v rest ih =>
    intro s
    rw [List.cons_append]
    cases hd : RegisteredLabel.from_cbor_value (α := iana.KeyOperation) v with
    | error e => simp only [processKeyOps, hd]
    | ok op =>
      simp only [processKeyOps, hd]
      rcases hins : insertKeyOp s op with ⟨s₀, b₀⟩
      cases b₀ with
      | false => simp
      | true => exact ih s₀

theorem processKeyOps_mono {ops : List Value} :
    ∀ {s s' : List KeyOperation}, processKeyOps s ops = .ok s' →
    ∀ a ∈ s, a ∈ s' := by
  induction ops with
  | nil =>
    intro s s' h
    simp only [processKeyOps] at h
    cases h
    exact fun a ha => ha
  | cons v rest ih =>
    intro s s' h
    cases hd : RegisteredLabel.from_cbor_value (α := iana.KeyOperation) v with
    | error e =>
      simp only [processKeyOps, hd] at h
      exact Except.noConfusion h
    | ok op =>
      simp only [processKeyOps, hd] at h
      rcases hins : insertKeyOp s op with ⟨s₀, b₀⟩
      rw [hins] at h
      cases b₀ with
      | false => exact Except.noConfusion h
      | true =>
        intro a ha
        have hb2 : (insertKeyOp s op).2 = true := by rw [hins]
        have hsub := insertKeyOp_sub hb2
        rw [hins] at hsub
        exact ih h a (hsub.1 a ha)

theorem processKeyOps_ne_nil {ops : List Value} {s s' : List KeyOperation}
    (hops : ops ≠ []) (h : processKeyOps s ops = .ok s') : s' ≠ [] := by
  cases ops with
  | nil => exact absurd rfl hops
  | cons v rest =>
    cases hd : RegisteredLabel.from_cbor_value (α := iana.KeyOperation) v with
    | error e =>
      simp only [processKeyOps, hd] at h
      exact Except.noConfusion h
    | ok op =>
      simp only [processKeyOps, hd] at h
      rcases hins : insertKeyOp s op with ⟨s₀, b₀⟩
      rw [hins] at h
      cases b₀ with
      | false => exact Except.noConfusion h
      | true =>
        have hb2 : (insertKeyOp s op).2 = true := by rw [hins]
        have hsub := insertKeyOp_sub hb2
        rw [hins] at hsub
        have hmem : op ∈ s' := processKeyOps_mono h op hsub.2
        intro hnil
        rw [hnil] at hmem
        exact List.not_mem_nil op hmem

/-- The decoded key-operation value is determined by its comparison key. -/
def opOfKey : Int ⊕ String → KeyOperation
  | .inl i =>
    match iana.KeyOperation.from_i128 i with
    | some c => .assigned c
    | none => .int i
  | .inr s => .text s

theorem enum_from_keyop (i : Int) :
    EnumI128.from_i128 (α := iana.KeyOperation) i = iana.KeyOperation.from_i128 i := rfl

theorem enum_to_keyop (c : iana.KeyOperation) :
    EnumI128.to_i128 c = iana.KeyOperation.to_i128 c := rfl

theorem decode_opOfKey {v : Value} {op : KeyOperation}
    (h : RegisteredLabel.from_cbor_value (α := iana.KeyOperation) v = .ok op) :
    op = opOfKey op.ordKey := by
  cases v with
  | unsigned n =>
    simp only [RegisteredLabel.from_cbor_value, enum_from_keyop] at h
    injection h with h
    rw [← h]
    cases hm : iana.KeyOperation.from_i128 (n : Int) with
    | some c =>
      have hc : iana.KeyOperation.to_i128 c = (n : Int) :=
        ((regFrom_eq_some_iff iana.KeyOperation.elems iana.KeyOperation.to_i128
          keyOperation_rt (n : Int) c).mp hm).symm
      simp only [hm, RegisteredLabel.ordKey, opOfKey, enum_to_keyop, hc]
    | none =>
      simp only [hm, RegisteredLabel.ordKey, opOfKey]
  | negative i =>
    simp only [RegisteredLabel.from_cbor_value, enum_from_keyop] at h
    injection h with h
    rw [← h]
    cases hm : iana.KeyOperation.from_i128 i with
    | some c =>
      have hc : iana.KeyOperation.to_i128 c = i :=
        ((regFrom_eq_some_iff iana.KeyOperation.elems iana.KeyOperation.to_i128
          keyOperation_rt i c).mp hm).symm
      simp only [hm, RegisteredLabel.ordKey, opOfKey, enum_to_keyop, hc]
    | none =>
      simp only [hm, RegisteredLabel.ordKey, opOfKey]
  | textString s =>
    simp only [RegisteredLabel.from_cbor_value] at h
    injection h with h
    rw [← h]
    rfl
  | byteString bs => exact Except.noConfusion h
  | array vs => exact Except.noConfusion h
  | map m => exact Except.noConfusion h
  | simple sv => exact Except.noConfusion h

theorem decode_key_det {v w : Value} {op op' : KeyOperation}
    (hv : RegisteredLabel.from_cbor_value (α := iana.KeyOperation) v = .ok op)
    (hw : RegisteredLabel.from_cbor_value (α := iana.KeyOperation) w = .ok op')
    (hk : op.ordKey = op'.ordKey) : op = op' := by
  rw [decode_opOfKey hv, decode_opOfKey hw, hk]

/-- With int/text elements, pairwise-distinct decoded values, and no value
already in the (arbitrary) starting set, the key-operation loop
succeeds. -/
theorem processKeyOps_nodup_ok (ops : List Value) :
    ∀ s : List KeyOperation,
    (∀ v ∈ ops, IntOrText v) →
    List.Pairwise (fun v w =>
      RegisteredLabel.from_cbor_value (α := iana.KeyOperation) v ≠
      RegisteredLabel.from_cbor_value (α := iana.KeyOperation) w) ops →
    (∀ v ∈ ops, ∀ op : KeyOperation,
      RegisteredLabel.from_cbor_value (α := iana.KeyOperation) v = .ok op →
      ¬ ∃ a ∈ s, a.ordKey = op.ordKey) →
    ∃ s', processKeyOps s ops = .ok s' := by
  induction ops with
  | nil => intro s _ _ _; exact ⟨s, rfl⟩
  | cons w rest ih =>
    intro s hit hpw hdis
    obtain ⟨opw, hw⟩ := decode_op_total w (hit w (List.mem_cons_self _ _))
    rw [List.pairwise_cons] at hpw
    obtain ⟨hwhead, hptail⟩ := hpw
    have hfresh : (insertKeyOp s opw).2 = true := by
      cases hb : (insertKeyOp s opw).2 with
      | true => rfl
      | false =>
        obtain ⟨a, ha, hak⟩ := insertKeyOp_dup hb
        exact absurd ⟨a, ha, hak⟩ (hdis w (List.mem_cons_self _ _) opw hw)
    rw [processKeyOps_cons s w rest hw, if_pos hfresh]
    refine ih (insertKeyOp s opw).1
      (fun u hu => hit u (List.mem_cons_of_mem _ hu)) hptail ?_
    intro v hv opv hopv ⟨a, ha, hak⟩
    rcases insertKeyOp_mem ha with ha' | ha'
    · exact hdis v (List.mem_cons_of_mem _ hv) opv hopv ⟨a, ha', hak⟩
    · have : opv = opw := decode_key_det hopv hw (by rw [← hak, ha'])
      rw [this] at hopv
      exact hwhead v hv (by rw [hw, hopv])

/-- Entry processing from two states that differ only in fixed field `n`
mirrors: both fail with the same error, or both succeed with results that
again differ only in field `n` (label 4 excluded when `n = 4`, since that
entry reads the key-operation set). -/
theorem processEntry_mirror {n : Nat} {k₁ k₂ : CoseKey} (hd : SameExcept n k₁ k₂)
    (l v : Value) (hl4 : l = Value.unsigned 4 → n ≠ 4) :
    (∃ e, processEntry k₁ l v = .error e ∧ processEntry k₂ l v = .error e) ∨
    (∃ k₁' k₂', processEntry k₁ l v = .ok k₁' ∧ processEntry k₂ l v = .ok k₂' ∧
      SameExcept n k₁' k₂') := by
  obtain ⟨hf1, hf2, hf3, hf4, hf5, hf6⟩ := hd
  cases l with
  | unsigned m =>
    by_cases h1 : m = 1
    · subst h1
      cases hdec : RegisteredLabel.from_cbor_value (α := iana.KeyType) v with
      | error e =>
        exact Or.inl ⟨e, by simp [processEntry, hdec], by simp [processEntry, hdec]⟩
      | ok kt =>
        exact Or.inr ⟨{ k₁ with kty := kt }, { k₂ with kty := kt },
          by simp [processEntry, hdec], by simp [processEntry, hdec],
          fun _ => rfl, fun hx => hf2 hx, fun hx => hf3 hx, fun hx => hf4 hx,
          fun hx => hf5 hx, hf6⟩
    by_cases h2 : m = 2
    · subst h2
      cases v with
      | byteString bs =>
        by_cases hbs : bs = []
        · exact Or.inl ⟨CoseError.unexpectedType "empty bstr" "non-empty bstr",
            by simp [processEntry, hbs], by simp [processEntry, hbs]⟩
        · exact Or.inr ⟨{ k₁ with key_id := bs }, { k₂ with key_id := bs },
            by simp [processEntry, hbs], by simp [processEntry, hbs],
            fun hx => hf1 hx, fun _ => rfl, fun hx => hf3 hx, fun hx => hf4 hx,
            fun hx => hf5 hx, hf6⟩
      | unsigned x => exact Or.inl ⟨_, rfl, rfl⟩
      | negative x => exact Or.inl ⟨_, rfl, rfl⟩
      | textString x => exact Or.inl ⟨_, rfl, rfl⟩
      | array x => exact Or.inl ⟨_, rfl, rfl⟩
      | map x => exact Or.inl ⟨_, rfl, rfl⟩
      | simple x => exact Or.inl ⟨_, rfl, rfl⟩
    by_cases h3 : m = 3
    · subst h3
      cases hdec : RegisteredLabel.from_cbor_value (α := iana.Algorithm) v with
      | error e =>
        exact Or.inl ⟨e, by simp [processEntry, hdec], by simp [processEntry, hdec]⟩
      | ok a =>
        exact Or.inr ⟨{ k₁ with alg := some a }, { k₂ with alg := some a },
          by simp [processEntry, hdec], by simp [processEntry, hdec],
          fun hx => hf1 hx, fun hx => hf2 hx, fun _ => rfl, fun hx => hf4 hx,
          fun hx => hf5 hx, hf6⟩
    by_cases h4 : m = 4
    · subst h4
      have hn4 : n ≠ 4 := hl4 rfl
      have hops : k₁.key_ops = k₂.key_ops := hf4 hn4
      cases v with
      | array ops =>
        cases hpo : processKeyOps k₁.key_ops ops with
        | error e =>
          have hpo₂ : processKeyOps k₂.key_ops ops = .error e := by
            rw [← hops]; exact hpo
          exact Or.inl ⟨e, by simp [processEntry, hpo], by simp [processEntry, hpo₂]⟩
        | ok s =>
          have hpo₂ : processKeyOps k₂.key_ops ops = .ok s := by
            rw [← hops]; exact hpo
          by_cases hs0 : s = []
          · exact Or.inl ⟨CoseError.unexpectedType "empty array" "non-empty array",
              by simp [processEntry, hpo, hs0], by simp [processEntry, hpo₂, hs0]⟩
          · exact Or.inr ⟨{ k₁ with key_ops := s }, { k₂ with key_ops := s },
              by simp [processEntry, hpo, hs0], by simp [processEntry, hpo₂, hs0],
              fun hx => hf1 hx, fun hx => hf2 hx, fun hx => hf3 hx, fun _ => rfl,
              fun hx => hf5 hx, hf6⟩
      | unsigned x => exact Or.inl ⟨_, rfl, rfl⟩
      | negative x => exact Or.inl ⟨_, rfl, rfl⟩
      | textString x => exact Or.inl ⟨_, rfl, rfl⟩
      | byteString x => exact Or.inl ⟨_, rfl, rfl⟩
      | map x => exact Or.inl ⟨_, rfl, rfl⟩
      | simple x => exact Or.inl ⟨_, rfl, rfl⟩
    by_cases h5 : m = 5
    · subst h5
      cases v with
      | byteString bs =>
        by_cases hbs : bs = []
        · exact Or.inl ⟨CoseError.unexpectedType "empty bstr" "non-empty bstr",
            by simp [processEntry, hbs], by simp [processEntry, hbs]⟩
        · exact Or.inr ⟨{ k₁ with base_iv := bs }, { k₂ with base_iv := bs },
            by simp [processEntry, hbs], by simp [processEntry, hbs],
            fun hx => hf1 hx, fun hx => hf2 hx, fun hx => hf3 hx, fun hx => hf4 hx,
            fun _ => rfl, hf6⟩
      | unsigned x => exact Or.inl ⟨_, rfl, rfl⟩
      | negative x => exact Or.inl ⟨_, rfl, rfl⟩
      | textString x => exact Or.inl ⟨_, rfl, rfl⟩
      | array x => exact Or.inl ⟨_, rfl, rfl⟩
      | map x => exact Or.inl ⟨_, rfl, rfl⟩
      | simple x => exact Or.inl ⟨_, rfl, rfl⟩
    · exact Or.inr ⟨{ k₁ with params := k₁.params ++ [(.int m, v)] },
        { k₂ with params := k₂.params ++ [(.int m, v)] },
        by simp [processEntry, h1, h2, h3, h4, h5, Label.from_cbor_value],
        by simp [processEntry, h1, h2, h3, h4, h5, Label.from_cbor_value],
        fun hx => hf1 hx, fun hx => hf2 hx, fun hx => hf3 hx, fun hx => hf4 hx,
        fun hx => hf5 hx, by rw [hf6]⟩
  | negative i =>
    exact Or.inr ⟨{ k₁ with params := k₁.params ++ [(.int i, v)] },
      { k₂ with params := k₂.params ++ [(.int i, v)] }, rfl, rfl,
      fun hx => hf1 hx, fun hx => hf2 hx, fun hx => hf3 hx, fun hx => hf4 hx,
      fun hx => hf5 hx, by rw [hf6]⟩
  | textString s =>
    exact Or.inr ⟨{ k₁ with params := k₁.params ++ [(.text s, v)] },
      { k₂ with params := k₂.params ++ [(.text s, v)] }, rfl, rfl,
      fun hx => hf1 hx, fun hx => hf2 hx, fun hx => hf3 hx, fun hx => hf4 hx,
      fun hx => hf5 hx, by rw [hf6]⟩
  | byteString bs => exact Or.inl ⟨_, rfl, rfl⟩
  | array vs => exact Or.inl ⟨_, rfl, rfl⟩
  | map mm => exact Or.inl ⟨_, rfl, rfl⟩
  | simple sv => exact Or.inl ⟨_, rfl, rfl⟩

theorem processEntries_mirror {n : Nat} (m : List (Value × Value))
    (hm4 : n = 4 → ∀ p ∈ m, p.1 ≠ Value.unsigned 4) :
    ∀ {k₁ k₂ : CoseKey}, SameExcept n k₁ k₂ →
    (∃ e, processEntries k₁ m = .error e ∧ processEntries k₂ m = .error e) ∨
    (∃ k₁' k₂', processEntries k₁ m = .ok k₁' ∧ processEntries k₂ m = .ok k₂' ∧
      SameExcept n k₁' k₂') := by
  induction m with
  | nil => intro k₁ k₂ hd; exact Or.inr ⟨k₁, k₂, rfl, rfl, hd⟩
  | cons p rest ih =>
    intro k₁ k₂ hd
    obtain ⟨l, v⟩ := p
    have hl4 : l = Value.unsigned 4 → n ≠ 4 := by
      intro he hn
      exact hm4 hn (l, v) (List.mem_cons_self _ _) he
    rcases processEntry_mirror hd l v hl4 with ⟨e, he₁, he₂⟩ | ⟨k₁', k₂', h₁, h₂, hd'⟩
    · exact Or.inl ⟨e, by simp [processEntries, he₁], by simp [processEntries, he₂]⟩
    · rcases ih (fun hn q hq => hm4 hn q (List.mem_cons_of_mem _ hq)) hd' with
        ⟨e, he₁, he₂⟩ | ⟨ka, kb, ha, hb, hdd⟩
      · exact Or.inl ⟨e, by simp [processEntries, h₁, he₁],
          by simp [processEntries, h₂, he₂]⟩
      · exact Or.inr ⟨ka, kb, by simp [processEntries, h₁, ha],
          by simp [processEntries, h₂, hb], hdd⟩

/-- A later occurrence of fixed label `n` makes the two states converge:
both sides fail identically or both reach the same state. -/
theorem processEntry_converge {n : Nat} (hn : n = 1 ∨ n = 2 ∨ n = 3 ∨ n = 5)
    {k₁ k₂ : CoseKey} (hd : SameExcept n k₁ k₂) (v : Value) :
    (∃ e, processEntry k₁ (.unsigned n) v = .error e ∧
          processEntry k₂ (.unsigned n) v = .error e) ∨
    (∃ k', processEntry k₁ (.unsigned n) v = .ok k' ∧
           processEntry k₂ (.unsigned n) v = .ok k') := by
  obtain ⟨hf1, hf2, hf3, hf4, hf5, hf6⟩ := hd
  rcases hn with rfl | rfl | rfl | rfl
  · cases hdec : RegisteredLabel.from_cbor_value (α := iana.KeyType) v with
    | error e =>
      exact Or.inl ⟨e, by simp [processEntry, hdec], by simp [processEntry, hdec]⟩
    | ok kt =>
      have he : ({ k₂ with kty := kt } : CoseKey) = { k₁ with kty := kt } :=
        coseKey_ext rfl (hf2 (by omega)).symm (hf3 (by omega)).symm
          (hf4 (by omega)).symm (hf5 (by omega)).symm hf6.symm
      exact Or.inr ⟨{ k₁ with kty := kt }, by simp [processEntry, hdec],
        by simp [processEntry, hdec, he]⟩
  · cases v with
    | byteString bs =>
      by_cases hbs : bs = []
      · exact Or.inl ⟨CoseError.unexpectedType "empty bstr" "non-empty bstr",
          by simp [processEntry, hbs], by simp [processEntry, hbs]⟩
      · have he : ({ k₂ with key_id := bs } : CoseKey) = { k₁ with key_id := bs } :=
          coseKey_ext (hf1 (by omega)).symm rfl (hf3 (by omega)).symm
            (hf4 (by omega)).symm (hf5 (by omega)).symm hf6.symm
        exact Or.inr ⟨{ k₁ with key_id := bs }, by simp [processEntry, hbs],
          by simp [processEntry, hbs, he]⟩
    | unsigned x => exact Or.inl ⟨_, rfl, rfl⟩
    | negative x => exact Or.inl ⟨_, rfl, rfl⟩
    | textString x => exact Or.inl ⟨_, rfl, rfl⟩
    | array x => exact Or.inl ⟨_, rfl, rfl⟩
    | map x => exact Or.inl ⟨_, rfl, rfl⟩
    | simple x => exact Or.inl ⟨_, rfl, rfl⟩
  · cases hdec : RegisteredLabel.from_cbor_value (α := iana.Algorithm) v with
    | error e =>
      exact Or.inl ⟨e, by simp [processEntry, hdec], by simp [processEntry, hdec]⟩
    | ok a =>
      have he : ({ k₂ with alg := some a } : CoseKey) = { k₁ with alg := some a } :=
        coseKey_ext (hf1 (by omega)).symm (hf2 (by omega)).symm rfl
          (hf4 (by omega)).symm (hf5 (by omega)).symm hf6.symm
      exact Or.inr ⟨{ k₁ with alg := some a }, by simp [processEntry, hdec],
        by simp [processEntry, hdec, he]⟩
  · cases v with
    | byteString bs =>
      by_cases hbs : bs = []
      · exact Or.inl ⟨CoseError.unexpectedType "empty bstr" "non-empty bstr",
          by simp [processEntry, hbs], by simp [processEntry, hbs]⟩
      · have he : ({ k₂ with base_iv := bs } : CoseKey) = { k₁ with base_iv := bs } :=
          coseKey_ext (hf1 (by omega)).symm (hf2 (by omega)).symm (hf3 (by omega)).symm
            (hf4 (by omega)).symm rfl hf6.symm
        exact Or.inr ⟨{ k₁ with base_iv := bs }, by simp [processEntry, hbs],
          by simp [processEntry, hbs, he]⟩
    | unsigned x => exact Or.inl ⟨_, rfl, rfl⟩
    | negative x => exact Or.inl ⟨_, rfl, rfl⟩
    | textString x => exact Or.inl ⟨_, rfl, rfl⟩
    | array x => exact Or.inl ⟨_, rfl, rfl⟩
    | map x => exact Or.inl ⟨_, rfl, rfl⟩
    | simple x => exact Or.inl ⟨_, rfl, rfl⟩

theorem processEntry_ops_transport {k k' : CoseKey} {l v : Value}
    {y : List KeyOperation} (hl : l ≠ Value.unsigned 4)
    (h : processEntry k l v = .ok k') :
    processEntry { k with key_ops := y } l v = .ok { k' with key_ops := y } := by
  have hd : SameExcept 4 k { k with key_ops := y } :=
    ⟨fun _ => rfl, fun _ => rfl, fun _ => rfl, fun hx => absurd rfl hx, fun _ => rfl, rfl⟩
  rcases processEntry_mirror hd l v (fun he => absurd he hl) with
    ⟨e, he₁, he₂⟩ | ⟨k₁', k₂', h₁, h₂, hd'⟩
  · rw [h] at he₁; exact Except.noConfusion he₁
  · rw [h] at h₁
    injection h₁ with h₁
    subst h₁
    obtain ⟨g1, g2, g3, g4, g5, g6⟩ := hd'
    have hops : k₂'.key_ops = y := processEntry_preserve_ops hl h₂
    have heq : k₂' = { k' with key_ops := y } :=
      coseKey_ext (g1 (by omega)).symm (g2 (by omega)).symm (g3 (by omega)).symm
        hops (g5 (by omega)).symm g6.symm
    rw [heq] at h₂
    exact h₂

theorem processEntries_ops_transport (m : List (Value × Value))
    (hm : ∀ p ∈ m, p.1 ≠ Value.unsigned 4) :
    ∀ {k k' : CoseKey} {y : List KeyOperation},
    processEntries k m = .ok k' →
    processEntries { k with key_ops := y } m = .ok { k' with key_ops := y } := by
  induction m with
  | nil =>
    intro k k' y h
    simp only [processEntries] at h ⊢
    cases h
    rfl
  | cons p rest ih =>
    intro k k' y h
    obtain ⟨l, v⟩ := p
    simp only [processEntries] at h ⊢
    cases hpe : processEntry k l v with
    | error e => rw [hpe] at h; exact Except.noConfusion h
    | ok k₀ =>
      rw [hpe] at h
      have ht := processEntry_ops_transport (y := y)
        (hm (l, v) (List.mem_cons_self _ _)) hpe
      rw [ht]
      exact ih (fun q hq => hm q (List.mem_cons_of_mem _ hq)) h

theorem processEntries_preserve_ops_list {m : List (Value × Value)}
    (hm : ∀ p ∈ m, p.1 ≠ Value.unsigned 4) :
    ∀ {k k' : CoseKey}, processEntries k m = .ok k' → k'.key_ops = k.key_ops := by
  induction m with
  | nil =>
    intro k k' h
    simp only [processEntries] at h
    cases h
    rfl
  | cons p rest ih =>
    intro k k' h
    obtain ⟨l, v⟩ := p
    simp only [processEntries] at h
    cases hpe : processEntry k l v with
    | error e => rw [hpe] at h; exact Except.noConfusion h
    | ok k₀ =>
      rw [hpe] at h
      rw [ih (fun q hq => hm q (List.mem_cons_of_mem _ hq)) h,
        processEntry_preserve_ops (hm (l, v) (List.mem_cons_self _ _)) hpe]

/-- C10: duplicated fixed labels raise no duplicate-label error.  Part 1:
for labels 1, 2, 3 and 5, removing an earlier successfully-processed
occurrence leaves decoding unchanged — the later occurrence overwrites the
earlier value.  Part 2: the elements of two label-4 occurrences accumulate
into the same set as a single combined occurrence (given the first array
is non-empty, no label-4 entry sits in between, and the in-between entries
process without error).  Part 3: the key-operation loop succeeds whenever
the elements are int/text values, no two decode to the same operation, and
none is already in the set — so it fails only when an operation value
repeats. -/
theorem fixed_label_overwrite :
    (∀ n : Nat, (n = 1 ∨ n = 2 ∨ n = 3 ∨ n = 5) →
      ∀ v₁ : Value, (∀ c : CoseKey, ∃ c', processEntry c (.unsigned n) v₁ = .ok c') →
      ∀ (m₁ m₂ m₃ : List (Value × Value)) (v₂ : Value),
      CoseKey.from_cbor_value (.map (m₁ ++ ((Value.unsigned n, v₁) ::
        (m₂ ++ ((Value.unsigned n, v₂) :: m₃))))) =
      CoseKey.from_cbor_value (.map (m₁ ++ (m₂ ++ ((Value.unsigned n, v₂) :: m₃))))) ∧
    (∀ (m₁ m₂ m₃ : List (Value × Value)) (ops₁ ops₂ : List Value) (k : CoseKey)
       (s₁ : List KeyOperation) (k' : CoseKey),
      processEntries CoseKey.default m₁ = .ok k →
      processKeyOps k.key_ops ops₁ = .ok s₁ →
      ops₁ ≠ [] →
      (∀ p ∈ m₂, p.1 ≠ Value.unsigned 4) →
      processEntries { k with key_ops := s₁ } m₂ = .ok k' →
      CoseKey.from_cbor_value (.map (m₁ ++ ((Value.unsigned 4, Value.array ops₁) ::
        (m₂ ++ ((Value.unsigned 4, Value.array ops₂) :: m₃))))) =
      CoseKey.from_cbor_value (.map (m₁ ++ ((Value.unsigned 4,
        Value.array (ops₁ ++ ops₂)) :: (m₂ ++ m₃))))) ∧
    (∀ (ops : List Value) (s : List KeyOperation),
      (∀ v ∈ ops, IntOrText v) →
      List.Pairwise (fun v w =>
        RegisteredLabel.from_cbor_value (α := iana.KeyOperation) v ≠
        RegisteredLabel.from_cbor_value (α := iana.KeyOperation) w) ops →
      (∀ v ∈ ops, ∀ op : KeyOperation,
        RegisteredLabel.from_cbor_value (α := iana.KeyOperation) v = .ok op →
        ¬ ∃ a ∈ s, a.ordKey = op.ordKey) →
      ∃ s', processKeyOps s ops = .ok s') := by
  refine ⟨?_, ?_, fun ops s h1 h2 h3 => processKeyOps_nodup_ok ops s h1 h2 h3⟩
  · intro n hn v₁ hv₁ m₁ m₂ m₃ v₂
    rw [CoseKey.from_cbor_value, CoseKey.from_cbor_value]
    suffices hsuff : processEntries CoseKey.default (m₁ ++ ((Value.unsigned n, v₁) ::
        (m₂ ++ ((Value.unsigned n, v₂) :: m₃)))) =
        processEntries CoseKey.default (m₁ ++ (m₂ ++ ((Value.unsigned n, v₂) :: m₃))) by
      rw [hsuff]
    cases hm1 : processEntries CoseKey.default m₁ with
    | error e => rw [processEntries_append_err hm1, processEntries_append_err hm1]
    | ok k =>
      rw [processEntries_append_ok hm1, processEntries_append_ok hm1]
      obtain ⟨k₁, hk₁⟩ := hv₁ k
      simp only [processEntries, hk₁]
      have hd : SameExcept n k₁ k := processEntry_sameExcept hn hk₁
      have hm4 : n = 4 → ∀ p ∈ m₂, p.1 ≠ Value.unsigned 4 := by
        intro h4
        exact absurd h4 (by rcases hn with rfl | rfl | rfl | rfl <;> omega)
      rcases processEntries_mirror m₂ hm4 hd with ⟨e, he₁, he₂⟩ | ⟨ka, kb, ha, hb, hdd⟩
      · rw [processEntries_append_err he₁, processEntries_append_err he₂]
      · rw [processEntries_append_ok ha, processEntries_append_ok hb]
        rcases processEntry_converge hn hdd v₂ with ⟨e, he₁, he₂⟩ | ⟨k₀, h₁, h₂⟩
        · simp only [processEntries, he₁, he₂]
        · simp only [processEntries, h₁, h₂]
  · intro m₁ m₂ m₃ ops₁ ops₂ k s₁ k' hok hops₁ hne₁ hm₂ hm₂ok
    rw [CoseKey.from_cbor_value, CoseKey.from_cbor_value]
    suffices hsuff : processEntries CoseKey.default
        (m₁ ++ ((Value.unsigned 4, Value.array ops₁) ::
          (m₂ ++ ((Value.unsigned 4, Value.array ops₂) :: m₃)))) =
        processEntries CoseKey.default
        (m₁ ++ ((Value.unsigned 4, Value.array (ops₁ ++ ops₂)) :: (m₂ ++ m₃))) by
      rw [hsuff]
    rw [processEntries_append_ok hok, processEntries_append_ok hok]
    have hs₁ne : s₁ ≠ [] := processKeyOps_ne_nil hne₁ hops₁
    have hentry₁ : processEntry k (.unsigned 4) (.array ops₁) =
        .ok { k with key_ops := s₁ } := by
      simp [processEntry, hops₁, hs₁ne]
    have hcomb : processKeyOps k.key_ops (ops₁ ++ ops₂) = processKeyOps s₁ ops₂ := by
      rw [processKeyOps_append, hops₁]
    have hk'ops : k'.key_ops = s₁ := processEntries_preserve_ops_list hm₂ hm₂ok
    cases hr : processKeyOps s₁ ops₂ with
    | error e =>
      have hL : processEntry k' (.unsigned 4) (.array ops₂) = .error e := by
        simp [processEntry, hk'ops, hr]
      have hR : processEntry k (.unsigned 4) (.array (ops₁ ++ ops₂)) = .error e := by
        rw [hr] at hcomb
        simp [processEntry, hcomb]
      simp only [processEntries, hentry₁, hL, hR]
      rw [processEntries_append_ok hm₂ok]
      simp only [processEntries, hL]
    | ok s₂ =>
      have hs₂ne : s₂ ≠ [] := by
        intro h0
        obtain ⟨a, ha⟩ := List.exists_mem_of_ne_nil s₁ hs₁ne
        have := processKeyOps_mono hr a ha
        rw [h0] at this
        exact List.not_mem_nil a this
      have hL : processEntry k' (.unsigned 4) (.array ops₂) =
          .ok { k' with key_ops := s₂ } := by
        simp [processEntry, hk'ops, hr, hs₂ne]
      have hR : processEntry k (.unsigned 4) (.array (ops₁ ++ ops₂)) =
          .ok { k with key_ops := s₂ } := by
        rw [hr] at hcomb
        simp [processEntry, hcomb, hs₂ne]
      simp only [processEntries, hentry₁, hR]
      rw [processEntries_append_ok hm₂ok]
      simp only [processEntries, hL]
      have htrans : processEntries { k with key_ops := s₂ } m₂ =
          .ok { k' with key_ops := s₂ } :=
        processEntries_ops_transport m₂ hm₂ (k := { k with key_ops := s₁ }) (y := s₂) hm₂ok
      rw [processEntries_append_ok htrans]

/-- Witness for C10: each part applied at concrete inputs — a duplicated
key_id entry where the later occurrence wins, two accumulating label-4
occurrences, and a successful duplicate-free key-operation list. -/
theorem fixed_label_overwrite_witness :
    CoseKey.from_cbor_value (.map [(Value.unsigned 1, Value.unsigned 4),
        (Value.unsigned 2, Value.byteString [9]),
        (Value.unsigned 2, Value.byteString [7])]) =
      CoseKey.from_cbor_value (.map [(Value.unsigned 1, Value.unsigned 4),
        (Value.unsigned 2, Value.byteString [7])]) ∧
    CoseKey.from_cbor_value (.map [(Value.unsigned 1, Value.unsigned 4),
        (Value.unsigned 4, Value.array [Value.unsigned 1]),
        (Value.unsigned 4, Value.array [Value.unsigned 2])]) =
      CoseKey.from_cbor_value (.map [(Value.unsigned 1, Value.unsigned 4),
        (Value.unsigned 4, Value.array [Value.unsigned 1, Value.unsigned 2])]) ∧
    (∃ s', processKeyOps [] [Value.unsigned 1, Value.unsigned 2] = .ok s') := by
  refine ⟨?_, ?_, ?_⟩
  · have h := fixed_label_overwrite.1 2 (by omega) (Value.byteString [9])
      (fun c => ⟨{ c with key_id := [9] }, rfl⟩)
      [(Value.unsigned 1, Value.unsigned 4)] [] []
      (Value.byteString [7])
    simpa using h
  · have h := fixed_label_overwrite.2.1 [(Value.unsigned 1, Value.unsigned 4)] [] []
      [Value.unsigned 1] [Value.unsigned 2] _ [RegisteredLabel.assigned .Sign] _
      rfl rfl (by simp) (by simp) rfl
    simpa using h
  · exact fixed_label_overwrite.2.2 [Value.unsigned 1, Value.unsigned 2] []
      (by intro v hv; rcases List.mem_cons.mp hv with h | h;
          · rw [h]; exact trivial
          · rw [List.mem_singleton.mp h]; exact trivial)
      (by refine List.Pairwise.cons ?_ (List.pairwise_singleton _ _)
          intro w hw
          rw [List.mem_singleton.mp hw]
          intro hx
          exact absurd (Except.ok.inj hx) (by decide))
      (by intro v hv op hop ⟨a, ha, hak⟩; exact List.not_mem_nil a ha)

end Coset
